import Mathlib

/-!
Verification development for the incentive-company matching backend
(`src/backend/src/api/services/matching_service.py`,
`src/backend/src/api/services/company_filter.py`,
`src/backend/src/ai/vector_db.py`, `src/backend/src/ai/openai_client.py`,
`src/backend/src/database/schema.py`, `src/backend/src/database/connection.py`).

Modelling conventions:
* Python floats and `Decimal` values are modelled as exact rationals (`ℚ`);
  every constant the claims mention (0.40, 0.35, 0.25, 3.0, the clamp bounds)
  is exactly representable, so the modelled arithmetic agrees with the claims.
* JSON-decoded values (`json.loads`) are modelled by the inductive `JVal`;
  Python dicts become association lists in insertion order.
* Python exceptions are split into the ones the ranker catches
  (`json.JSONDecodeError`, `ValueError`, `KeyError` — leading to the
  similarity-only fallback) and the ones it does not (`TypeError`,
  `AttributeError` — propagating to the caller).
* The single LLM interaction per ranking call is abstracted by the decoded
  response (`Option JVal`, `none` = undecodable text) and by the usage
  dictionary that the AI client returned; the prompt text itself carries no
  information the claims depend on and is not modelled.
-/

namespace Augusta

/-- JSON values as produced by `json.loads`: null, booleans, ints, floats,
strings, arrays, and objects (dicts, kept as association lists in insertion
order, keys unique). -/
inductive JVal where
  | jnull
  | jbool (b : Bool)
  | jint (n : Int)
  | jfloat (q : ℚ)
  | jstr (s : String)
  | jarr (elems : List JVal)
  | jobj (fields : List (String × JVal))

/-- Python exceptions relative to the `except (json.JSONDecodeError, ValueError,
KeyError)` clause of `_llm_rank_candidates` (line 245): `caught` errors are
turned into the similarity-only fallback, `uncaught` ones (`TypeError`,
`AttributeError`) propagate out of the function. -/
inductive PyErr where
  | caught (msg : String)
  | uncaught (msg : String)

/-- Computations in the parsing loop: a value, or a Python exception. -/
abbrev PyRes (α : Type) := Except PyErr α

/-- Python `d.get(key)` on a dict modelled as an association list. -/
def dictGet (fields : List (String × JVal)) (key : String) : Option JVal :=
  match fields.find? (fun kv => kv.1 == key) with
  | some kv => some kv.2
  | none => none

/-- Python `d[key] = v`: overwrite in place if the key exists, else append
(dicts preserve insertion order). -/
def dictSet (fields : List (String × JVal)) (key : String) (v : JVal) :
    List (String × JVal) :=
  if fields.any (fun kv => kv.1 == key) then
    fields.map (fun kv => if kv.1 == key then (key, v) else kv)
  else fields ++ [(key, v)]

/-- Value of a list of decimal digit characters, `none` if any character is not
a digit (the digit list may be empty, contributing 0 — the caller checks
emptiness where Python does). -/
def digitsVal (cs : List Char) : Option Nat :=
  if cs.all Char.isDigit then
    some (cs.foldl (fun a c => 10 * a + (c.toNat - 48)) 0)
  else none

/-- Partial model of Python `float(s)` on strings: an optional sign followed by
a plain decimal literal (`123`, `1.5`, `.5`, `2.`).  Python additionally
accepts exponents, `inf`/`nan` and surrounding whitespace; such inputs are
treated here like any other non-literal string, i.e. as the `ValueError`
case. -/
def pyFloatOfString (s : String) : Option ℚ :=
  let cs := s.toList
  let signBody : Bool × List Char :=
    match cs with
    | '-' :: rest => (true, rest)
    | '+' :: rest => (false, rest)
    | _ => (false, cs)
  let neg := signBody.1
  match signBody.2.splitOn '.' with
  | [ip] =>
      if ip.isEmpty then none
      else (digitsVal ip).map (fun n => if neg then -(n : ℚ) else (n : ℚ))
  | [ip, fp] =>
      if ip.isEmpty && fp.isEmpty then none
      else
        match digitsVal ip, digitsVal fp with
        | some i, some f =>
            let q : ℚ := (i : ℚ) + (f : ℚ) / ((10 : ℚ) ^ fp.length)
            some (if neg then -q else q)
        | _, _ => none
  | _ => none

/-- Python `float(x)` on a JSON-decoded value: ints, floats and bools convert
(bools are ints in Python); numeric strings parse, non-numeric strings raise
`ValueError` (caught); `None`, arrays and objects raise `TypeError`, which the
ranker does not catch. -/
def pyFloat : JVal → PyRes ℚ
  | .jint n => .ok (n : ℚ)
  | .jfloat q => .ok q
  | .jbool b => .ok (if b then 1 else 0)
  | .jstr s =>
      match pyFloatOfString s with
      | some q => .ok q
      | none => .error (.caught "could not convert string to float")
  | .jnull => .error (.uncaught "TypeError: float() argument is None")
  | .jarr _ => .error (.uncaught "TypeError: float() argument is a list")
  | .jobj _ => .error (.uncaught "TypeError: float() argument is a dict")

/-- A candidate row as returned by `find_similar_companies`: the company id and
the cosine similarity score `1 - distance`.  The textual columns that only feed
the prompt are not modelled. -/
structure Candidate where
  id : Nat
  similarity : ℚ
  deriving DecidableEq

/-- The `MatchingResult` container (matching_service.py lines 26-33): company
id, composite score (`Decimal(str(final_score))` in the source — exact here),
1-based rank, and the reasoning payload (the mutated response entry, or the
synthesized fallback dict). -/
structure MatchingResult where
  company_id : Nat
  score : ℚ
  rank : Nat
  reasoning : JVal

/-- Model of `float(result.get(key, {}).get('score', 3))` (lines 213-215 and
228-230): missing outer key defaults to `{}`, missing `score` defaults to 3; a
non-dict value under the outer key raises `AttributeError` (uncaught). -/
def critScore (fields : List (String × JVal)) (key : String) : PyRes ℚ :=
  match (dictGet fields key).getD (.jobj []) with
  | .jobj sub => pyFloat ((dictGet sub "score").getD (.jint 3))
  | _ => .error (.uncaught "AttributeError: .get on a non-dict value")

/-- The chained comparison `1 <= company_number <= len(candidates)` (line 203):
ints, floats and bools compare against ints; any other type raises `TypeError`,
which the ranker does not catch. -/
def cmpInRange (cn : JVal) (len : Nat) : PyRes Bool :=
  match cn with
  | .jint n => .ok (decide (1 ≤ n ∧ n ≤ (len : Int)))
  | .jfloat q => .ok (decide (1 ≤ q ∧ q ≤ (len : ℚ)))
  | .jbool b => .ok (b && decide (1 ≤ len))
  | _ => .error (.uncaught "TypeError: int and str comparison")

/-- Python list index `company_number - 1` (line 204), reached only when the
range check succeeded: ints (and `True`, which is the int 1) index normally; a
float that passed the range check still raises `TypeError` at indexing. -/
def cnIndex (cn : JVal) : PyRes Nat :=
  match cn with
  | .jint n => .ok (n - 1).toNat
  | .jbool _ => .ok 0
  | _ => .error (.uncaught "TypeError: list indices must be integers")

/-- Lines 208-222 of `_llm_rank_candidates`: the composite score is the
explicit `final_score` if the entry carries one, else the Portugal-2030
weighted sum `0.40*adequacao + 0.35*qualidade + 0.25*capacidade` of the three
component scores, which is also written back into the entry dict. -/
def computeFinalScore (fields : List (String × JVal)) :
    PyRes (ℚ × List (String × JVal)) :=
  match dictGet fields "final_score" with
  | some v => do
      let fs ← pyFloat v
      pure (fs, fields)
  | none => do
      let adequacao ← critScore fields "adequacao_estrategia"
      let qualidade ← critScore fields "qualidade"
      let capacidade ← critScore fields "capacidade_execucao"
      let fs := adequacao * 0.40 + qualidade * 0.35 + capacidade * 0.25
      pure (fs, dictSet fields "final_score" (.jfloat fs))

/-- Body of one iteration of the parsing loop of `_llm_rank_candidates`
(lines 200-240): reads the company number (defaulting to the enumeration
index `rank`), skips the entry when the number is out of range (returning
`none`), and otherwise computes the composite score (clamped to [1, 5] on
line 225, after the unclamped value was written back), attaches similarity and
component scores to the reasoning dict, and yields the company id, the clamped
score and the mutated dict.  Entries that are not JSON objects raise
`AttributeError` (uncaught). -/
def processEntryCore (candidates : List Candidate) (rank : Nat) (entry : JVal) :
    PyRes (Option (Nat × ℚ × JVal)) :=
  match entry with
  | .jobj fields => do
      let cn := (dictGet fields "company_number").getD (.jint (rank : Int))
      let inRange ← cmpInRange cn candidates.length
      if inRange then do
        let idx ← cnIndex cn
        let company := candidates.getD idx ⟨0, 0⟩
        let scored ← computeFinalScore fields
        let finalScore := max 1.0 (min 5.0 scored.1)
        let fields1 := dictSet scored.2 "vector_similarity" (.jfloat company.similarity)
        let sfit ← critScore fields1 "adequacao_estrategia"
        let fields2 := dictSet fields1 "strategic_fit" (.jfloat sfit)
        let qual ← critScore fields2 "qualidade"
        let fields3 := dictSet fields2 "quality" (.jfloat qual)
        let execcap ← critScore fields3 "capacidade_execucao"
        let fields4 := dictSet fields3 "execution_capacity" (.jfloat execcap)
        pure (some (company.id, finalScore, .jobj fields4))
      else
        pure none
  | _ => .error (.uncaught "AttributeError: .get on a non-dict entry")

/-- One iteration of the loop, packaged as a `MatchingResult` (line 232):
the rank recorded in the result is the enumeration index, whether or not
earlier entries were skipped. -/
def processEntry (candidates : List Candidate) (rank : Nat) (entry : JVal) :
    PyRes (Option MatchingResult) :=
  (processEntryCore candidates rank entry).map
    (fun o => o.map (fun t => ⟨t.1, t.2.1, rank, t.2.2⟩))

/-- The loop `for rank, result in enumerate(results_array[:top_n], 1)`
(line 200): entries are processed in order with 1-based ranks; skipped entries
still consume their rank; the first Python exception aborts the loop. -/
def processEntries (candidates : List Candidate) :
    Nat → List JVal → PyRes (List MatchingResult)
  | _, [] => .ok []
  | rank, e :: rest => do
      let headRes ← processEntry candidates rank e
      let tailRes ← processEntries candidates (rank + 1) rest
      pure (match headRes with
            | some m => m :: tailRes
            | none => tailRes)

/-- The reasoning dict synthesized on parse failure (lines 251-259).  The
similarity interpolated into the recommendation text is elided (the claims
read the similarity from the `vector_similarity` key); `errMsg` is `str(e)`. -/
def fallbackReasoning (errMsg : String) (similarity : ℚ) : JVal :=
  .jobj [("adequacao_estrategia",
            .jobj [("score", .jint 3), ("reasoning", .jstr "LLM parsing failed")]),
         ("qualidade",
            .jobj [("score", .jint 3), ("reasoning", .jstr "LLM parsing failed")]),
         ("capacidade_execucao",
            .jobj [("score", .jint 3), ("reasoning", .jstr "LLM parsing failed")]),
         ("final_score", .jfloat 3.0),
         ("vector_similarity", .jfloat similarity),
         ("recommendation", .jstr "Selected by vector similarity"),
         ("error", .jstr errMsg)]

/-- The fallback branch of `_llm_rank_candidates` (lines 248-267): the first
`top_n` candidates in their original order, each with score `Decimal("3.0")`
and rank equal to its 1-based position (`enumerate(candidates[:top_n], 1)`). -/
def fallbackResults (candidates : List Candidate) (topN : Nat) (errMsg : String) :
    List MatchingResult :=
  (List.enumFrom 1 (candidates.take topN)).map
    (fun rc => ⟨rc.2.id, 3.0, rc.1, fallbackReasoning errMsg rc.2.similarity⟩)

/-- The `usage` sub-dictionary of the value returned by `OpenAIClient.complete`
(openai_client.py lines 153-161); `GeminiClient.complete` builds the same
shape (gemini_client.py lines 181-189).  Note that the monetary cost computed
by `_calculate_cost` is stored under the key `"cost"`. -/
def clientUsageDict (promptTokens completionTokens : Nat) (cost : ℚ) :
    List (String × ℚ) :=
  [("prompt_tokens", (promptTokens : ℚ)),
   ("completion_tokens", (completionTokens : ℚ)),
   ("total_tokens", ((promptTokens : ℚ) + (completionTokens : ℚ))),
   ("cost", cost)]

/-- `OpenAIClient._calculate_cost` (lines 167-174) for the default
`gpt-5-mini` pricing row: $0.10 per 1M prompt tokens, $0.40 per 1M completion
tokens. -/
def calculateCost (promptTokens completionTokens : Nat) : ℚ :=
  (promptTokens : ℚ) / 1000000 * 0.10 + (completionTokens : ℚ) / 1000000 * 0.40

/-- Line 186: `llm_cost = response_data['usage'].get('total_cost', 0.0)` —
a `.get` with default 0.0 on the usage dict. -/
def llmCostOf (usage : List (String × ℚ)) : ℚ :=
  match usage.find? (fun kv => kv.1 == "total_cost") with
  | some kv => kv.2
  | none => 0.0

/-- Does `json.loads` + the `isinstance(·, list)` check reject the response?
`none` models undecodable text (`json.JSONDecodeError`); a decoded non-array
raises `ValueError("Expected JSON array response")` (line 196).  Both are
caught and routed to the fallback. -/
def parseRejected : Option JVal → Bool
  | none => true
  | some (.jarr _) => false
  | some _ => true

/-- `_llm_rank_candidates` (lines 103-269) after the LLM call: `decoded` is
the result of `json.loads(response.strip())` and `usage` the usage dict of
the client response.  Caught exceptions anywhere in the try-block (including
mid-loop) discard all partial results and produce the fallback; uncaught
Python exceptions surface as `.error`.  The returned cost is whatever
line 186 extracted from the usage dict. -/
def llm_rank_candidates (candidates : List Candidate) (topN : Nat)
    (decoded : Option JVal) (usage : List (String × ℚ)) :
    Except String (List MatchingResult × ℚ) :=
  let llm_cost := llmCostOf usage
  match decoded with
  | none => .ok (fallbackResults candidates topN "JSONDecodeError", llm_cost)
  | some (.jarr entries) =>
      match processEntries candidates 1 (entries.take topN) with
      | .ok rs => .ok (rs, llm_cost)
      | .error (.caught e) => .ok (fallbackResults candidates topN e, llm_cost)
      | .error (.uncaught e) => .error e
  | some _ => .ok (fallbackResults candidates topN "Expected JSON array response", llm_cost)

/-- A stored incentive row, reduced to the columns the matching path reads:
the id and the optional pgvector embedding (`NULL` → `none`).  The textual
columns only feed the LLM prompt and are not modelled. -/
structure IncentiveRow where
  id : Nat
  embedding : Option (List ℚ)
  deriving DecidableEq

/-- A stored company row, reduced to id and optional embedding. -/
structure CompanyRow where
  id : Nat
  embedding : Option (List ℚ)
  deriving DecidableEq

/-- A row of the `matches` table (schema.py lines 44-55): unique on
(incentive_id, company_id); `reasoning` is a JSONB column that
`save_matches_to_database` leaves NULL when the reasoning dict is falsy;
`created_at` is the commit timestamp. -/
structure MatchRow where
  incentive_id : Nat
  company_id : Nat
  score : ℚ
  rank_position : Nat
  reasoning : Option JVal
  created_at : Nat

/-- Database state visible to the matching service. -/
structure DB where
  incentives : List IncentiveRow
  companies : List CompanyRow
  match_rows : List MatchRow

/-- Stable insertion of `a` after every element `b` with `le b a`; used to
model both SQL `ORDER BY` result order on the modelled state and Python
`list.sort` (both keep equal-key elements in input order here; the SQL
standard leaves ties unspecified, so this is one admissible order). -/
def insertLe {α : Type} (le : α → α → Bool) (a : α) : List α → List α
  | [] => [a]
  | b :: bs => if le b a then b :: insertLe le a bs else a :: b :: bs

/-- Stable sort by the boolean relation `le` (insertion sort). -/
def stableSortBy {α : Type} (le : α → α → Bool) (l : List α) : List α :=
  l.foldl (fun acc a => insertLe le a acc) []

/-- `VectorDB.find_similar_companies` (vector_db.py lines 118-166): fetch the
incentive embedding (`None` when the row is absent or the column is NULL →
return `[]`, lines 142-143), else order the companies whose embedding is not
NULL by ascending cosine distance, keep `limit` rows and report similarity
`1 - distance`.  `dist` abstracts the pgvector `<=>` operator. -/
def find_similar_companies (dist : List ℚ → List ℚ → ℚ) (db : DB)
    (incentive_id : Nat) (lim : Nat) : List Candidate :=
  match db.incentives.find? (fun r => r.id == incentive_id) with
  | none => []
  | some row =>
      match row.embedding with
      | none => []
      | some emb =>
          let withEmb := db.companies.filterMap (fun (c : CompanyRow) =>
            match c.embedding with
            | some cemb => some (c.id, dist emb cemb)
            | none => none)
          let sorted := stableSortBy
            (fun (a b : Nat × ℚ) => decide (a.2 ≤ b.2)) withEmb
          (sorted.take lim).map (fun (p : Nat × ℚ) => ⟨p.1, 1 - p.2⟩)

/-- Errors `match_companies_for_incentive` can raise: the explicit
`ValueError(f"Incentive {id} not found")` (line 73), or an uncaught Python
exception escaping the parsing loop. -/
inductive MatchError where
  | incentiveNotFound (id : Nat)
  | uncaughtExc (msg : String)
  deriving DecidableEq

/-- `match_companies_for_incentive` (matching_service.py lines 51-101):
fetch the incentive (not-found error if absent), run the vector search with
`top_k_candidates`, return `[]` when it yields nothing, else rank the
candidates with a single LLM call (`top_n=5`).  The comparison of the
reported cost against `max_cost_per_incentive` (line 98) only emits a log
warning and never changes the result, so the ceiling parameter is absent
here. -/
def match_companies_for_incentive (dist : List ℚ → List ℚ → ℚ) (db : DB)
    (incentive_id : Nat) (decoded : Option JVal) (usage : List (String × ℚ))
    (top_k_candidates : Nat := 20) : Except MatchError (List MatchingResult) :=
  match db.incentives.find? (fun r => r.id == incentive_id) with
  | none => .error (.incentiveNotFound incentive_id)
  | some _ =>
      let similar := find_similar_companies dist db incentive_id top_k_candidates
      if similar.isEmpty then .ok []
      else
        match llm_rank_candidates similar 5 decoded usage with
        | .ok (results, _cost) => .ok results
        | .error e => .error (.uncaughtExc e)

/-- Python truthiness of a JSON value, as used by
`json.dumps(match.reasoning) if match.reasoning else None` (line 332). -/
def pyTruthy : JVal → Bool
  | .jnull => false
  | .jbool b => b
  | .jint n => n != 0
  | .jfloat q => q != 0
  | .jstr s => !s.isEmpty
  | .jarr xs => !xs.isEmpty
  | .jobj fs => !fs.isEmpty

/-- The value bound to the reasoning column:
`json.dumps(match.reasoning) if match.reasoning else None` (line 332) — NULL
when the reasoning dict is falsy. -/
def reasoningColumn (m : MatchingResult) : Option JVal :=
  if pyTruthy m.reasoning then some m.reasoning else none

/-- One `INSERT ... ON CONFLICT (incentive_id, company_id) DO UPDATE`
statement (lines 316-333): if a row with the key exists, overwrite
score/rank_position/reasoning and set `created_at = NOW()`; otherwise insert a
fresh row.  Each such statement is individually atomic. -/
def upsertMatch (now : Nat) (incentive_id : Nat) (m : MatchingResult)
    (tbl : List MatchRow) : List MatchRow :=
  if tbl.any (fun r => r.incentive_id == incentive_id && r.company_id == m.company_id) then
    tbl.map (fun r =>
      if r.incentive_id == incentive_id && r.company_id == m.company_id then
        { r with score := m.score, rank_position := m.rank,
                 reasoning := reasoningColumn m, created_at := now }
      else r)
  else
    tbl ++ [⟨incentive_id, m.company_id, m.score, m.rank, reasoningColumn m, now⟩]

/-- `save_matches_to_database` (lines 307-335): the rows are written one
statement at a time on a pooled connection obtained from `get_connection`
(connection.py lines 63-74), which opens no transaction — unlike the unused
`get_transaction` (lines 76-88) — so asyncpg commits every statement individually.
This is the table state after all statements have committed. -/
def save_matches_to_database (now : Nat) (incentive_id : Nat)
    (results : List MatchingResult) (tbl : List MatchRow) : List MatchRow :=
  results.foldl (fun t m => upsertMatch now incentive_id m t) tbl

/-- The successive table states a concurrent reader can observe while
`save_matches_to_database` runs: because each single-row statement commits on
its own, after the first `k` statements the visible state is the fold over the
first `k` results — in particular, if the write of row `k+1` fails, the first
`k` rows remain committed. -/
def saveStates (now : Nat) (incentive_id : Nat)
    (results : List MatchingResult) (tbl : List MatchRow) : List (List MatchRow) :=
  List.scanl (fun t m => upsertMatch now incentive_id m t) tbl results

/-- Loop state of `batch_match_all_incentives` (lines 357-360): the running
cost accumulator `total_cost` (read by the ceiling check on line 364; no loop
statement ever adds to it), the success/failure counters, the
`results_by_incentive` records `(id, num_matches, top_score)`, the growing
matches table, and whether the `break` on line 366 has fired. -/
structure BatchState where
  total_cost : ℚ
  successful : Nat
  failed : Nat
  results_by_incentive : List (Nat × Nat × ℚ)
  matchesTable : List MatchRow
  stopped : Bool

/-- The summary dict returned by `batch_match_all_incentives`
(lines 391-398); the formatted dollar strings are kept as the underlying
numbers. -/
structure BatchSummary where
  total_incentives : Nat
  successful_matches : Nat
  failed_matches : Nat
  total_cost : ℚ
  results_by_incentive : List (Nat × Nat × ℚ)

/-- One iteration of the `for incentive in incentives` loop (lines 362-389).
Python truthiness on line 364: `if max_cost_total and total_cost >=
max_cost_total` is false when the ceiling is `None` (`none`) or `0`, so only a
truthy ceiling can trigger the early `break`.  The `remaining_budget` /
`incentive_budget` computation (lines 368-369) feeds only the advisory
per-item warning inside `match_companies_for_incentive` and is therefore not
part of the state.  A per-incentive exception is caught and counted as
`failed` (lines 387-389). -/
def batchStep (dist : List ℚ → List ℚ → ℚ) (now : Nat) (db : DB)
    (max_cost_total : Option ℚ) (save_to_db : Bool)
    (oracle : Nat → Option JVal × List (String × ℚ))
    (st : BatchState) (inc : IncentiveRow) : BatchState :=
  if st.stopped then st
  else
    let hitCeiling := match max_cost_total with
      | none => false
      | some c => (c != 0) && decide (st.total_cost ≥ c)
    if hitCeiling then { st with stopped := true }
    else
      match match_companies_for_incentive dist
          { db with match_rows := st.matchesTable } inc.id
          (oracle inc.id).1 (oracle inc.id).2 with
      | .ok ms =>
          let tbl :=
            if save_to_db && !ms.isEmpty then
              save_matches_to_database now inc.id ms st.matchesTable
            else st.matchesTable
          let top : ℚ := match ms with
            | [] => 0.0
            | m :: _ => m.score
          { st with successful := st.successful + 1,
                    results_by_incentive :=
                      st.results_by_incentive ++ [(inc.id, ms.length, top)],
                    matchesTable := tbl }
      | .error _ => { st with failed := st.failed + 1 }

/-- `batch_match_all_incentives` (lines 337-401): iterate all incentives,
carrying the loop state; return the summary and the final matches table.
`oracle` supplies, per incentive id, the decoded scoring response and the
client usage dict of that incentive's single LLM call. -/
def batch_match_all_incentives (dist : List ℚ → List ℚ → ℚ) (now : Nat)
    (db : DB) (max_cost_total : Option ℚ) (save_to_db : Bool)
    (oracle : Nat → Option JVal × List (String × ℚ)) :
    BatchSummary × List MatchRow :=
  let final := db.incentives.foldl
    (batchStep dist now db max_cost_total save_to_db oracle)
    ⟨0.0, 0, 0, [], db.match_rows, false⟩
  (⟨db.incentives.length, final.successful, final.failed,
    final.total_cost, final.results_by_incentive⟩, final.matchesTable)

/-! ### CompanyPreFilter (company_filter.py)

Text processing is modelled over `List Char`.  Lower-casing is ASCII
(`str.lower()` in Python also lowers accented letters, but every accented
character appearing in the keyword lists below is already lower-case, and the
concrete inputs used in the theorems are ASCII). -/

/-- ASCII lower-casing of one character. -/
def lowerChar (c : Char) : Char :=
  if 65 ≤ c.toNat ∧ c.toNat ≤ 90 then Char.ofNat (c.toNat + 32) else c

/-- Lower-case a character list. -/
def lowerList (cs : List Char) : List Char := cs.map lowerChar

/-- Lower-case a string into a character list (`s.lower()`). -/
def lowerStr (s : String) : List Char := lowerList s.toList

/-- Does `needle` occur at the start of `hay`? -/
def startsWithSeq : List Char → List Char → Bool
  | [], _ => true
  | _ :: _, [] => false
  | a :: as, b :: bs => a == b && startsWithSeq as bs

/-- Python substring test `needle in hay` (empty needle matches). -/
def containsSeq (needle : List Char) : List Char → Bool
  | [] => needle.isEmpty
  | b :: rest => startsWithSeq needle (b :: rest) || containsSeq needle rest

/-- A company as read by the pre-filter (`CompanyModel`, restricted to the
fields the filter touches; Python `==` membership tests compare models by
value, modelled by decidable equality on these fields). -/
structure Company where
  id : Nat
  cae_primary_label : Option String
  trade_description_native : Option String
  deriving DecidableEq

/-- The JSON object fields that `_extract_incentive_criteria` reads from the
structured description (each via `.get` with a default; a missing field and
the default are indistinguishable). -/
structure StructuredDesc where
  target_sectors : List String
  eligible_activities : List String
  key_requirements : List String
  innovation_focus : Bool
  sustainability_focus : Bool
  digital_transformation_focus : Bool
  target_regions : List String
  deriving DecidableEq

/-- An incentive as read by the pre-filter.  `structured` is the outcome of
the two-stage decode of `ai_description_structured` with `ai_description`
fallback (company_filter.py lines 143-162): `none` when neither column held a
decodable JSON object (an empty decoded dict extracts exactly the same
defaults as `none`). -/
structure FilterIncentive where
  title : String
  description : Option String
  structured : Option StructuredDesc
  deriving DecidableEq

/-- The criteria dict built by `_extract_incentive_criteria` (lines 132-182). -/
structure Criteria where
  target_sectors : List String
  relevant_keywords : List String
  innovation_focus : Bool
  sustainability_focus : Bool
  digital_focus : Bool
  regions : List String

/-- The `sector_keywords` mapping (lines 34-45), in insertion order. -/
def sectorKeywords : List (String × List String) :=
  [("industria", ["manufacturing", "production", "industrial", "factory",
                  "fabricação", "produção", "indústria"]),
   ("tecnologia", ["technology", "software", "digital", "IT", "tech",
                   "tecnologia", "informática"]),
   ("turismo", ["tourism", "hotel", "restaurant", "travel", "turismo",
                "hospitalidade"]),
   ("agricultura", ["agriculture", "farming", "agro", "agricultura", "pecuária"]),
   ("energia", ["energy", "renewable", "solar", "wind", "energia", "renovável"]),
   ("comercio", ["retail", "commerce", "trading", "comércio", "vendas"]),
   ("servicos", ["services", "consulting", "serviços", "consultoria"]),
   ("construcao", ["construction", "building", "construção", "obra"]),
   ("saude", ["health", "medical", "healthcare", "saúde", "medicina"]),
   ("educacao", ["education", "training", "educação", "formação"])]

/-- The `innovation_keywords` list (lines 48-53). -/
def innovationKeywords : List String :=
  ["inovação", "innovation", "I&D", "R&D", "research", "desenvolvimento",
   "tecnologia", "technology", "digital", "automatização", "automation",
   "inteligência artificial", "artificial intelligence", "AI", "machine learning",
   "startup", "patente", "patent", "laboratório", "laboratory"]

/-- The `sustainability_keywords` list (lines 56-60). -/
def sustainabilityKeywords : List String :=
  ["sustentável", "sustainable", "verde", "green", "eco", "ambiente",
   "environment", "renewable", "renovável", "eficiência energética",
   "energy efficiency", "carbon", "carbono", "reciclagem", "recycling"]

/-- The `digital_keywords` list (lines 63-67). -/
def digitalKeywords : List String :=
  ["digital", "digitalization", "digitalização", "online", "e-commerce",
   "plataforma", "platform", "software", "app", "website", "sistema",
   "automatização", "automation", "cloud", "nuvem"]

/-- Word characters for the `\b\w{4,}\b` regex: alphanumerics, underscore,
and (approximating the unicode word class on the inputs that occur here)
any non-ASCII character. -/
def isWordChar (c : Char) : Bool :=
  c.isAlphanum || c == '_' || decide (128 ≤ c.toNat)

/-- Maximal runs of characters satisfying `keep`, in order. -/
def charRuns (keep : Char → Bool) (cs : List Char) : List (List Char) :=
  let p := cs.foldr
    (fun c (acc : List (List Char) × List Char) =>
      if keep c then (acc.1, c :: acc.2)
      else (if acc.2.isEmpty then acc.1 else acc.2 :: acc.1, []))
    ([], [])
  if p.2.isEmpty then p.1 else p.2 :: p.1

/-- The stop-word set of `_extract_keywords_from_text` (lines 348-352). -/
def stopWords : List String :=
  ["para", "com", "por", "em", "de", "da", "do", "das", "dos", "na", "no",
   "nas", "nos", "que", "como", "mais", "ser", "ter", "estar", "fazer",
   "dizer", "mesmo", "outro", "the", "and", "or", "but", "in", "on", "at",
   "to", "for", "of", "with", "by"]

/-- First-occurrence deduplication (the key order of a Python dict/Counter). -/
def dedupFirst (l : List String) : List String :=
  l.foldl (fun acc w => if acc.contains w then acc else acc ++ [w]) []

/-- Occurrence count of `w` in `l`. -/
def countOcc (l : List String) (w : String) : Nat :=
  (l.filter (fun x => x == w)).length

/-- `Counter(l).most_common(n)` keys: distinct words sorted by descending
count, ties in first-occurrence order (Python sort is stable). -/
def mostCommon (l : List String) (n : Nat) : List String :=
  (stableSortBy (fun a b => decide (countOcc l a ≥ countOcc l b)) (dedupFirst l)).take n

/-- `_extract_keywords_from_text` (lines 339-359): lower-case the text, take
the words matched by `\b\w{4,}\b`, drop stop words, return the 20 most
frequent. -/
def extract_keywords_from_text (text : String) : List String :=
  if text.isEmpty then []
  else
    let words := ((charRuns isWordChar (lowerStr text)).filter
      (fun w => w.length ≥ 4)).map (fun cs => String.mk cs)
    let keywords := words.filter
      (fun w => !(stopWords.contains w) && w.length > 3)
    mostCommon keywords 20

/-- `_extract_incentive_criteria` (lines 132-182): structured fields (if any)
plus keywords extracted from title and description. -/
def extract_incentive_criteria (inc : FilterIncentive) : Criteria :=
  let base : Criteria :=
    match inc.structured with
    | some s =>
        ⟨s.target_sectors, s.eligible_activities ++ s.key_requirements,
         s.innovation_focus, s.sustainability_focus,
         s.digital_transformation_focus, s.target_regions⟩
    | none => ⟨[], [], false, false, false, []⟩
  let text := inc.title ++ " " ++ (inc.description.getD "")
  { base with relevant_keywords :=
      base.relevant_keywords ++ extract_keywords_from_text text }

/-- The keyword-based part of the sector loop (lines 204-212): iterate the
`sector_keywords` entries in order; for a sector named in the targets, append
the company if some keyword occurs in the CAE label; stop as soon as the
company is a member of the accumulated list. -/
def sectorKeywordLoop (targets : List String) (cae : List Char) (c : Company) :
    List Company → List (String × List String) → List Company
  | filtered, [] => filtered
  | filtered, (sector, kws) :: rest =>
      if targets.contains sector then
        let filtered' :=
          if kws.any (fun k => containsSeq (lowerStr k) cae)
          then filtered ++ [c] else filtered
        if filtered'.contains c then filtered'
        else sectorKeywordLoop targets cae c filtered' rest
      else sectorKeywordLoop targets cae c filtered rest

/-- `_filter_by_sector` (lines 184-214): companies without a (truthy) CAE
label are skipped; a company is kept if a target sector name occurs in the
label, else the keyword-based loop runs. -/
def filter_by_sector (companies : List Company) (target_sectors : List String) :
    List Company :=
  if target_sectors.isEmpty then companies
  else
    let targets := target_sectors.map (fun s => String.mk (lowerStr s))
    companies.foldl (fun filtered c =>
      match c.cae_primary_label with
      | none => filtered
      | some cae0 =>
          if cae0.isEmpty then filtered
          else
            let cae := lowerStr cae0
            if targets.any (fun s => containsSeq s.toList cae) then
              filtered ++ [c]
            else sectorKeywordLoop targets cae c filtered sectorKeywords) []

/-- `_filter_by_keywords` (lines 216-234): keep companies whose trade
description contains one of the (truthy) keywords. -/
def filter_by_keywords (companies : List Company) (keywords : List String) :
    List Company :=
  if keywords.isEmpty then companies
  else
    let kws := (keywords.filter (fun k => !k.isEmpty)).map lowerStr
    companies.filter (fun c =>
      let d := lowerStr (c.trade_description_native.getD "")
      kws.any (fun k => containsSeq k d))

/-- The text `f"{trade_description_native or ''} {cae_primary_label or ''}"`,
lowered — used by the focus filter, the ranker and the expansion scan. -/
def focusText (c : Company) : List Char :=
  lowerStr ((c.trade_description_native.getD "") ++ " " ++
            (c.cae_primary_label.getD ""))

/-- `_filter_by_focus_areas` (lines 236-254). -/
def filter_by_focus_areas (companies : List Company)
    (focus_keywords : List String) : List Company :=
  if focus_keywords.isEmpty then companies
  else
    let focus := focus_keywords.map lowerStr
    companies.filter (fun c => focus.any (fun k => containsSeq k (focusText c)))

/-- The per-company relevance score of `_rank_and_limit_candidates`
(lines 270-294): Jaccard similarity of the de-duplicated word sets, plus 0.1
per incentive word of length > 3 occurring in the company text, plus 0.2 if
any innovation keyword occurs. -/
def rank_score (iwords : List String) (c : Company) : ℚ :=
  let ctextLower := focusText c
  let cwords := dedupFirst
    ((charRuns (fun ch => !ch.isWhitespace) ctextLower).map (fun cs => String.mk cs))
  let inter := (iwords.filter (fun w => cwords.contains w)).length
  let uni := iwords.length + (cwords.filter (fun w => !iwords.contains w)).length
  let jaccard : ℚ := if uni > 0 then (inter : ℚ) / (uni : ℚ) else 0
  let density : ℚ :=
    ((iwords.filter (fun w => w.length > 3 && containsSeq w.toList ctextLower)).length : ℚ)
      * 0.1
  let innovation : ℚ :=
    if innovationKeywords.any (fun k => containsSeq (lowerStr k) ctextLower)
    then 0.2 else 0
  jaccard + density + innovation

/-- `_rank_and_limit_candidates` (lines 256-298): stable descending sort by
score (Python `sort(reverse=True)` keeps ties in input order), then truncate. -/
def rank_and_limit_candidates (companies : List Company) (inc : FilterIncentive)
    (lim : Nat) : List Company :=
  let itext := inc.title ++ " " ++ (inc.description.getD "")
  let iwords := dedupFirst
    ((charRuns (fun ch => !ch.isWhitespace) (lowerStr itext)).map
      (fun cs => String.mk cs))
  (stableSortBy
    (fun a b => decide (rank_score iwords a ≥ rank_score iwords b)) companies).take lim

/-- The `incentive_terms` list of `_extract_general_keywords` (lines 369-374). -/
def incentiveTerms : List String :=
  ["apoio", "incentivo", "fundo", "financiamento", "subsídio",
   "modernização", "inovação", "desenvolvimento", "crescimento",
   "competitividade", "exportação", "internacionalização",
   "support", "funding", "grant", "development", "innovation"]

/-- `_extract_general_keywords` (lines 361-384): the incentive-related terms
occurring in title+description, plus five sector-agnostic terms that are
always added. -/
def extract_general_keywords (inc : FilterIncentive) : List String :=
  let text := lowerStr (inc.title ++ " " ++ (inc.description.getD ""))
  (incentiveTerms.filter (fun t => containsSeq t.toList text)) ++
    ["empresa", "negócio", "atividade", "projeto", "investimento"]

/-- The loop of the keyword scan in `_expand_candidate_pool` (lines 311-323):
walk the remaining companies with the accumulated candidate list, breaking
once `target_count` have been collected, appending companies whose text
contains some general keyword. -/
def broadScanGo (gks : List String) (target_count : Nat) :
    List Company → List Company → List Company
  | acc, [] => acc
  | acc, c :: rest =>
      if acc.length ≥ target_count then acc
      else if gks.any (fun k => containsSeq (lowerStr k) (focusText c)) then
        broadScanGo gks target_count (acc ++ [c]) rest
      else broadScanGo gks target_count acc rest

/-- The keyword scan of `_expand_candidate_pool` over the original full
company list. -/
def broadScan (all_companies : List Company) (inc : FilterIncentive)
    (target_count : Nat) : List Company :=
  broadScanGo (extract_general_keywords inc) target_count [] all_companies

/-- `_expand_candidate_pool` (lines 300-337): the broad keyword scan; if it
found fewer than half the target, top up with `random.sample` over the
not-yet-selected companies (`sample` abstracts the random choice), or with all
of them when fewer than needed remain. -/
def expand_candidate_pool (sample : List Company → Nat → List Company)
    (all_companies : List Company) (inc : FilterIncentive) (target_count : Nat) :
    List Company :=
  let candidates := broadScan all_companies inc target_count
  if candidates.length < target_count / 2 then
    let remaining_needed := target_count - candidates.length
    let available := all_companies.filter (fun c => !candidates.contains c)
    if available.length > remaining_needed then
      candidates ++ sample available remaining_needed
    else candidates ++ available
  else candidates

/-- Stages 1-4 of `filter_companies_for_incentive` (lines 92-121): sector
filter, keyword filter, focus-area filter (each stage only applied when its
criteria are truthy), then rank-and-truncate when above target. -/
def stageCandidates (companies : List Company) (inc : FilterIncentive)
    (target_count : Nat) : List Company :=
  let criteria := extract_incentive_criteria inc
  let c1 := if !criteria.target_sectors.isEmpty
            then filter_by_sector companies criteria.target_sectors else companies
  let c2 := if !criteria.relevant_keywords.isEmpty
            then filter_by_keywords c1 criteria.relevant_keywords else c1
  let focus := (if criteria.innovation_focus then innovationKeywords else []) ++
               (if criteria.sustainability_focus then sustainabilityKeywords else []) ++
               (if criteria.digital_focus then digitalKeywords else [])
  let c3 := if !focus.isEmpty then filter_by_focus_areas c2 focus else c2
  if c3.length > target_count then rank_and_limit_candidates c3 inc target_count
  else c3

/-- `filter_companies_for_incentive` (lines 69-130): when the surviving set
after the stages is below half the target count, the result is the value of
`_expand_candidate_pool` (line 126 rebinds `candidates`, discarding the
surviving set). -/
def filter_companies_for_incentive (sample : List Company → Nat → List Company)
    (companies : List Company) (inc : FilterIncentive) (target_count : Nat) :
    List Company :=
  let candidates := stageCandidates companies inc target_count
  if candidates.length < target_count / 2 then
    expand_candidate_pool sample companies inc target_count
  else candidates

/-! ### Helper lemmas about the parsing loop -/

/-- A result accepted by the parsing loop carries the enumeration index of its
entry as its rank. -/
theorem processEntry_rank_eq {cands : List Candidate} {r : Nat} {e : JVal}
    {m : MatchingResult} (h : processEntry cands r e = .ok (some m)) :
    m.rank = r := by
  unfold processEntry at h
  cases hc : processEntryCore cands r e with
  | error err => rw [hc] at h; simp [Except.map] at h
  | ok o =>
      rw [hc] at h
      cases o with
      | none => simp [Except.map] at h
      | some t =>
          simp only [Except.map, Option.map, Except.ok.injEq,
            Option.some.injEq] at h
          subst h
          rfl

/-- The ranks of the results accepted from entries enumerated from `r` form a
sublist (strictly increasing subsequence) of `[r, r+1, …]`: skipped entries
leave gaps but never disturb the order, and no rank repeats. -/
theorem processEntries_rank_sublist {cands : List Candidate} :
    ∀ {es : List JVal} {r : Nat} {rs : List MatchingResult},
      processEntries cands r es = .ok rs →
      (rs.map MatchingResult.rank).Sublist (List.range' r es.length) := by
  intro es
  induction es with
  | nil =>
      intro r rs h
      simp only [processEntries, Except.ok.injEq] at h
      subst h
      simp
  | cons e rest ih =>
      intro r rs h
      simp only [processEntries] at h
      cases hh : processEntry cands r e with
      | error err => rw [hh] at h; simp [Bind.bind, Except.bind] at h
      | ok o =>
          rw [hh] at h
          cases ht : processEntries cands (r + 1) rest with
          | error err => rw [ht] at h; simp [Bind.bind, Except.bind] at h
          | ok rs' =>
              rw [ht] at h
              simp only [Bind.bind, Except.bind, pure, Except.pure,
                Except.ok.injEq] at h
              have hsub := ih ht
              rw [List.length_cons, List.range'_succ]
              cases o with
              | none =>
                  subst h
                  exact hsub.cons _
              | some m =>
                  have hr := processEntry_rank_eq hh
                  subst h
                  rw [List.map_cons, hr]
                  exact hsub.cons₂ r

/-- Ranks of the fallback results: exactly `1, 2, …, len(candidates[:topN])`. -/
theorem enumFrom_fallback_rank (e : String) :
    ∀ (l : List Candidate) (n : Nat),
      ((List.enumFrom n l).map (fun rc =>
        (⟨rc.2.id, 3.0, rc.1, fallbackReasoning e rc.2.similarity⟩
          : MatchingResult))).map MatchingResult.rank = List.range' n l.length
  | [], _ => by simp
  | c :: l, n => by
      simp only [List.enumFrom, List.map_cons, List.length_cons,
        List.range'_succ, List.cons.injEq, true_and]
      exact enumFrom_fallback_rank e l (n + 1)

/-- Closed form of `fallback_map_rank` over `fallbackResults`. -/
theorem fallback_map_rank (cands : List Candidate) (topN : Nat) (e : String) :
    (fallbackResults cands topN e).map MatchingResult.rank
      = List.range' 1 (cands.take topN).length := by
  unfold fallbackResults
  exact enumFrom_fallback_rank e (cands.take topN) 1

/-- Any successful outcome of a top-5 ranking call has ranks forming a
sublist of `[1, 2, 3, 4, 5]`. -/
theorem llm_rank_ok_rank_sublist {cands : List Candidate} {decoded : Option JVal}
    {usage : List (String × ℚ)} {rs : List MatchingResult} {cost : ℚ}
    (h : llm_rank_candidates cands 5 decoded usage = .ok (rs, cost)) :
    (rs.map MatchingResult.rank).Sublist (List.range' 1 5) := by
  have fb : ∀ e : String,
      ((fallbackResults cands 5 e).map MatchingResult.rank).Sublist
        (List.range' 1 5) := by
    intro e
    rw [fallback_map_rank]
    exact List.range'_sublist_right.mpr (by simp [List.length_take])
  unfold llm_rank_candidates at h
  cases decoded with
  | none =>
      simp only [Except.ok.injEq, Prod.mk.injEq] at h
      rw [← h.1]
      exact fb _
  | some v =>
      cases v with
      | jarr entries =>
          simp only at h
          cases hp : processEntries cands 1 (entries.take 5) with
          | ok rs0 =>
              rw [hp] at h
              simp only [Except.ok.injEq, Prod.mk.injEq] at h
              rw [← h.1]
              have := processEntries_rank_sublist hp
              refine this.trans (List.range'_sublist_right.mpr ?_)
              simp [List.length_take]
          | error err =>
              rw [hp] at h
              cases err with
              | caught msg =>
                  simp only [Except.ok.injEq, Prod.mk.injEq] at h
                  rw [← h.1]
                  exact fb _
              | uncaught msg => simp at h
      | jnull => simp only [Except.ok.injEq, Prod.mk.injEq] at h; rw [← h.1]; exact fb _
      | jbool b => simp only [Except.ok.injEq, Prod.mk.injEq] at h; rw [← h.1]; exact fb _
      | jint n => simp only [Except.ok.injEq, Prod.mk.injEq] at h; rw [← h.1]; exact fb _
      | jfloat q => simp only [Except.ok.injEq, Prod.mk.injEq] at h; rw [← h.1]; exact fb _
      | jstr s => simp only [Except.ok.injEq, Prod.mk.injEq] at h; rw [← h.1]; exact fb _
      | jobj f => simp only [Except.ok.injEq, Prod.mk.injEq] at h; rw [← h.1]; exact fb _

/-- The successful results of a ranking call, `[]` on an uncaught error
(projection used to state concrete evaluations). -/
def okResults (r : Except String (List MatchingResult × ℚ)) :
    List MatchingResult :=
  match r with
  | .ok p => p.1
  | .error _ => []

/-- Constant distance function used in concrete scenarios (all companies tie;
the stable order then returns them in table order). -/
def cDist : List ℚ → List ℚ → ℚ := fun _ _ => 0

/-- Concrete database: incentive 1 is embedded, companies 10 and 20 are
embedded candidates. -/
def c1db : DB := ⟨[⟨1, some [0]⟩], [⟨10, some [0]⟩, ⟨20, some [0]⟩], []⟩

/-- A scoring response whose first entry references an out-of-range candidate
index 5 and whose second references candidate 1. -/
def c1respGap : Option JVal :=
  some (.jarr [.jobj [("company_number", .jint 5)],
               .jobj [("company_number", .jint 1)]])

/-- A scoring response that references candidate 1 twice. -/
def c1respDup : Option JVal :=
  some (.jarr [.jobj [("company_number", .jint 1)],
               .jobj [("company_number", .jint 1)]])

/-- The matchOne results on `c1respGap`. -/
def c1resGap : List MatchingResult :=
  match match_companies_for_incentive cDist c1db 1 c1respGap [] 20 with
  | .ok rs => rs
  | .error _ => []

/-- The matchOne results on `c1respDup`. -/
def c1resDup : List MatchingResult :=
  match match_companies_for_incentive cDist c1db 1 c1respDup [] 20 with
  | .ok rs => rs
  | .error _ => []

/-- C1, counterexample: on a response with an out-of-range candidate index the
single returned result has rank 2, so the rank positions are not the
contiguous sequence 1..len = [1]; and on a response repeating candidate index
1 the same (incentive, company) pair occurs twice in the result set. -/
theorem matchOne_rank_gap_and_dup_pairs :
    c1resGap.map MatchingResult.rank = [2] ∧
    List.range' 1 c1resGap.length = [1] ∧
    ([2] : List Nat) ≠ [1] ∧
    c1resDup.map MatchingResult.company_id = [10, 10] ∧
    ¬ (c1resDup.map MatchingResult.company_id).Nodup := by
  refine ⟨rfl, rfl, by decide, rfl, by decide⟩

/-- Backbone of the C1 rank invariant, shared with the persistence bounds. -/
theorem matchOne_ok_ranks_sublist_aux {dist : List ℚ → List ℚ → ℚ} {db : DB}
    {incentive_id : Nat} {decoded : Option JVal} {usage : List (String × ℚ)}
    {topK : Nat} {rs : List MatchingResult}
    (h : match_companies_for_incentive dist db incentive_id decoded usage topK
           = .ok rs) :
    (rs.map MatchingResult.rank).Sublist (List.range' 1 5) := by
  unfold match_companies_for_incentive at h
  cases hf : db.incentives.find? (fun r => r.id == incentive_id) with
  | none => simp only [hf] at h; exact absurd h (by simp)
  | some row =>
      simp only [hf] at h
      split at h
      · simp only [Except.ok.injEq] at h
        subst h
        simp
      · cases hr : llm_rank_candidates
            (find_similar_companies dist db incentive_id topK) 5 decoded usage with
        | ok p =>
            obtain ⟨rs0, cost⟩ := p
            rw [hr] at h
            simp only [Except.ok.injEq] at h
            subst h
            exact llm_rank_ok_rank_sublist hr
        | error e => rw [hr] at h; simp at h

/-- C1, amended: any successful `match_companies_for_incentive` call returns
results whose rank positions form a strictly increasing subsequence (sublist)
of 1..5 — hence at most 5 results, ranks pairwise distinct and within 1..5 —
but not necessarily a contiguous prefix: an out-of-range candidate index
leaves a gap at its rank, and a repeated index duplicates an
(incentive, company) pair. -/
theorem matchOne_rank_sublist {dist : List ℚ → List ℚ → ℚ} {db : DB}
    {incentive_id : Nat} {decoded : Option JVal} {usage : List (String × ℚ)}
    {topK : Nat} {rs : List MatchingResult}
    (h : match_companies_for_incentive dist db incentive_id decoded usage topK
           = .ok rs) :
    (rs.map MatchingResult.rank).Sublist (List.range' 1 5) :=
  matchOne_ok_ranks_sublist_aux h

/-- The matchOne results on a fallback-inducing (undecodable) response at the
concrete database. -/
def c1wres : List MatchingResult :=
  match match_companies_for_incentive cDist c1db 1 none [] 20 with
  | .ok rs => rs
  | .error _ => []

/-- C1, witness: the sublist property at a concrete database and a concrete
response, with the success hypothesis discharged by evaluation. -/
theorem matchOne_rank_sublist_witness :
    (c1wres.map MatchingResult.rank).Sublist (List.range' 1 5) :=
  matchOne_rank_sublist
    (show match_companies_for_incentive cDist c1db 1 none [] 20 = .ok c1wres
     from rfl)

/-- C9: `match_companies_for_incentive` fails with the not-found error exactly
when the incentive id is absent from the store; and for an incentive that is
present but has no stored embedding, `find_similar_companies` returns the
empty list — not an error — and matchOne then returns the empty result set. -/
theorem matchOne_notfound_iff_and_empty_on_no_embedding
    (dist : List ℚ → List ℚ → ℚ) (db : DB) (incentive_id : Nat)
    (decoded : Option JVal) (usage : List (String × ℚ)) (topK : Nat) :
    (match_companies_for_incentive dist db incentive_id decoded usage topK
        = .error (.incentiveNotFound incentive_id)
      ↔ db.incentives.find? (fun r => r.id == incentive_id) = none) ∧
    (∀ row, db.incentives.find? (fun r => r.id == incentive_id) = some row →
      row.embedding = none →
      find_similar_companies dist db incentive_id topK = [] ∧
      match_companies_for_incentive dist db incentive_id decoded usage topK
        = .ok []) := by
  constructor
  · constructor
    · intro h
      cases hf : db.incentives.find? (fun r => r.id == incentive_id) with
      | none => rfl
      | some row =>
          unfold match_companies_for_incentive at h
          simp only [hf] at h
          split at h
          · exact absurd h (by simp)
          · cases hr : llm_rank_candidates
                (find_similar_companies dist db incentive_id topK)
                5 decoded usage with
            | ok p => obtain ⟨rs0, cost⟩ := p; rw [hr] at h; simp at h
            | error e => rw [hr] at h; simp at h
    · intro hf
      unfold match_companies_for_incentive
      simp only [hf]
  · intro row hrow hemb
    have hsim : find_similar_companies dist db incentive_id topK = [] := by
      unfold find_similar_companies
      simp only [hrow, hemb]
    refine ⟨hsim, ?_⟩
    unfold match_companies_for_incentive
    simp only [hrow, hsim, List.isEmpty_nil, if_true]

/-- Concrete database for C9: incentive 1 exists but has no stored embedding;
one embedded company exists. -/
def c9db : DB := ⟨[⟨1, none⟩], [⟨7, some [1]⟩], []⟩

/-- C9, witness: at the concrete database, the incentive exists without an
embedding, the vector search returns the empty list, and matchOne returns an
empty result set rather than an error. -/
theorem matchOne_no_embedding_witness :
    find_similar_companies cDist c9db 1 20 = [] ∧
    match_companies_for_incentive cDist c9db 1 none [] 20 = .ok [] :=
  (matchOne_notfound_iff_and_empty_on_no_embedding cDist c9db 1 none [] 20).2
    ⟨1, none⟩ rfl rfl

/-- Projection reading a key out of a reasoning payload (a JSON object). -/
def reasoningGet (j : JVal) (key : String) : Option JVal :=
  match j with
  | .jobj fields => dictGet fields key
  | _ => none

/-- Candidate list shared by the ranker scenarios: two candidates in
descending similarity order. -/
def c2cands : List Candidate := [⟨10, 9/10⟩, ⟨20, 4/5⟩]

/-- C2, counterexample: a decoded response that is a JSON array containing one
object with all fields missing is accepted by the structured parse — no
fallback — yielding 1 result instead of min(5, 2) = 2, and its reasoning
payload carries no error indicator. -/
theorem missing_fields_do_not_trigger_fallback :
    (okResults (llm_rank_candidates c2cands 5 (some (.jarr [.jobj []])) [])).length
      = 1 ∧
    min 5 c2cands.length = 2 ∧ (1 : Nat) ≠ 2 ∧
    (okResults (llm_rank_candidates c2cands 5 (some (.jarr [.jobj []])) [])).map
      (fun m => reasoningGet m.reasoning "error") = [none] := by
  refine ⟨rfl, rfl, by decide, rfl⟩

/-- Per-element shape of the fallback synthesis, paired with the original
candidates in order. -/
theorem fallback_forall2 (e : String) :
    ∀ (l : List Candidate) (n : Nat),
      List.Forall₂ (fun (m : MatchingResult) (c : Candidate) =>
          m.company_id = c.id ∧ m.score = 3.0 ∧
          reasoningGet m.reasoning "vector_similarity"
            = some (.jfloat c.similarity) ∧
          reasoningGet m.reasoning "error" = some (.jstr e))
        ((List.enumFrom n l).map (fun rc =>
          (⟨rc.2.id, 3.0, rc.1, fallbackReasoning e rc.2.similarity⟩
            : MatchingResult))) l
  | [], _ => by simp
  | c :: l, n => by
      simp only [List.enumFrom, List.map_cons]
      exact List.Forall₂.cons ⟨rfl, rfl, rfl, rfl⟩ (fallback_forall2 e l (n + 1))

/-- C2 (amended): for every response the structured parse rejects —
undecodable text or a decoded non-array (entries with missing fields parse
with defaulted component scores and do not trigger the fallback) — the ranker
returns exactly the fallback synthesis: min(topN, #candidates) results taken
in the candidates' original order, each scored 3.0 with rank equal to its
1-based position, the reasoning payload carrying the original similarity and
an error indicator. -/
theorem fallback_on_parse_rejection (cands : List Candidate) (topN : Nat)
    (decoded : Option JVal) (usage : List (String × ℚ))
    (h : parseRejected decoded = true) :
    (∃ e, llm_rank_candidates cands topN decoded usage
        = .ok (fallbackResults cands topN e, llmCostOf usage)) ∧
    ∀ e, (fallbackResults cands topN e).length = min topN cands.length ∧
      (fallbackResults cands topN e).map MatchingResult.rank
        = List.range' 1 (min topN cands.length) ∧
      List.Forall₂ (fun (m : MatchingResult) (c : Candidate) =>
          m.company_id = c.id ∧ m.score = 3.0 ∧
          reasoningGet m.reasoning "vector_similarity"
            = some (.jfloat c.similarity) ∧
          reasoningGet m.reasoning "error" = some (.jstr e))
        (fallbackResults cands topN e) (cands.take topN) := by
  constructor
  · cases decoded with
    | none => exact ⟨"JSONDecodeError", rfl⟩
    | some v =>
        cases v with
        | jarr entries => simp [parseRejected] at h
        | jnull => exact ⟨"Expected JSON array response", rfl⟩
        | jbool b => exact ⟨"Expected JSON array response", rfl⟩
        | jint n => exact ⟨"Expected JSON array response", rfl⟩
        | jfloat q => exact ⟨"Expected JSON array response", rfl⟩
        | jstr s => exact ⟨"Expected JSON array response", rfl⟩
        | jobj f => exact ⟨"Expected JSON array response", rfl⟩
  · intro e
    refine ⟨?_, ?_, ?_⟩
    · simp [fallbackResults, List.length_take]
    · rw [fallback_map_rank, List.length_take]
    · exact fallback_forall2 e (cands.take topN) 1

/-- C2, witness: the fallback equation at a concrete candidate list and an
undecodable response. -/
theorem fallback_on_parse_rejection_witness :
    parseRejected none = true ∧
    ∃ e, llm_rank_candidates c2cands 5 none []
        = .ok (fallbackResults c2cands 5 e, llmCostOf []) :=
  ⟨rfl, (fallback_on_parse_rejection c2cands 5 none [] rfl).1⟩

/-- C4: the usage dict reported by the AI clients stores the monetary cost
under the key `"cost"`, but line 186 reads `"total_cost"` with default 0.0;
the cost returned by the ranker is therefore 0 even when the client reported
a nonzero cost — and (the true half of the claim) the result list does not
depend on the usage dict at all. -/
theorem rank_drops_reported_cost_and_cost_is_advisory :
    (llmCostOf (clientUsageDict 100 50 (calculateCost 100 50)) = 0 ∧
     calculateCost 100 50 ≠ 0) ∧
    ∀ (cands : List Candidate) (topN : Nat) (decoded : Option JVal)
      (u1 u2 : List (String × ℚ)),
      (llm_rank_candidates cands topN decoded u1).map Prod.fst
        = (llm_rank_candidates cands topN decoded u2).map Prod.fst := by
  refine ⟨⟨?_, ?_⟩, ?_⟩
  · have h : llmCostOf (clientUsageDict 100 50 (calculateCost 100 50)) = 0.0 := rfl
    rw [h]; norm_num
  · unfold calculateCost; norm_num
  intro cands topN decoded u1 u2
  unfold llm_rank_candidates
  cases decoded with
  | none => rfl
  | some v =>
      cases v with
      | jarr entries =>
          cases hp : processEntries cands 1 (entries.take topN) with
          | ok rs0 => simp only [hp]; rfl
          | error err => cases err <;> simp [hp, Except.map]
      | jnull => rfl
      | jbool b => rfl
      | jint n => rfl
      | jfloat q => rfl
      | jstr s => rfl
      | jobj f => rfl

/-- Concrete database for C3: one incentive with an embedding and one
embedded company, so the incentive goes through the scoring path. -/
def c3db : DB := ⟨[⟨1, some [1]⟩], [⟨7, some [1]⟩], []⟩

/-- Oracle for C3: the scoring call's text is undecodable (fallback path) and
the client reports a large cost — under the `"cost"` key, as both clients
do. -/
def c3oracle : Nat → Option JVal × List (String × ℚ) :=
  fun _ => (none, [("cost", 1000)])

/-- C3, evaluation at the failing input: with an aggregate cost ceiling of 0
over a one-incentive catalog whose scoring call reports cost 1000, the batch
still processes the incentive through the scoring path — successful = 1 and
one persisted row, not successful = 0 — and reports a running total cost of 0:
the loop never adds to `total_cost`, and a ceiling of 0 is falsy in the
`if max_cost_total and …` guard, so the early stop cannot fire. -/
theorem batch_ceiling_zero_processes_all :
    (batch_match_all_incentives cDist 0 c3db (some 0) true c3oracle).1.successful_matches
      = 1 ∧
    (batch_match_all_incentives cDist 0 c3db (some 0) true c3oracle).1.total_cost
      = 0 ∧
    ((batch_match_all_incentives cDist 0 c3db (some 0) true c3oracle).2).length
      = 1 ∧
    (1 : Nat) ≠ 0 := by
  refine ⟨rfl, ?_, rfl, by decide⟩
  have h : (batch_match_all_incentives cDist 0 c3db (some 0) true c3oracle).1.total_cost
      = 0.0 := rfl
  rw [h]; norm_num

/-- C10: for every entry the parser accepts that carries no explicit
`final_score`, the composite score of the produced result is the weighted sum
`0.40*strategic + 0.35*quality + 0.25*execution` clamped to [1, 5]. -/
theorem composite_score_weighted {cands : List Candidate} {r : Nat}
    {fields : List (String × JVal)} {a q c : ℚ} {m : MatchingResult}
    (hfs : dictGet fields "final_score" = none)
    (ha : critScore fields "adequacao_estrategia" = .ok a)
    (hq : critScore fields "qualidade" = .ok q)
    (hc : critScore fields "capacidade_execucao" = .ok c)
    (hm : processEntry cands r (.jobj fields) = .ok (some m)) :
    m.score = max 1.0 (min 5.0 (a * 0.40 + q * 0.35 + c * 0.25)) := by
  have hcf : computeFinalScore fields
      = .ok (a * 0.40 + q * 0.35 + c * 0.25,
             dictSet fields "final_score"
               (.jfloat (a * 0.40 + q * 0.35 + c * 0.25))) := by
    unfold computeFinalScore
    rw [hfs]
    simp only [Bind.bind, Except.bind, ha, hq, hc, pure, Except.pure]
  unfold processEntry processEntryCore at hm
  simp only [Bind.bind, Except.bind, pure, Except.pure, Except.map] at hm
  cases hcr : cmpInRange ((dictGet fields "company_number").getD (.jint (r : Int)))
      cands.length with
  | error err => rw [hcr] at hm; simp at hm
  | ok b =>
      rw [hcr] at hm
      cases b with
      | false => simp at hm
      | true =>
          simp only [if_true] at hm
          cases hci : cnIndex ((dictGet fields "company_number").getD (.jint (r : Int))) with
          | error err => rw [hci] at hm; simp at hm
          | ok idx =>
              rw [hci, hcf] at hm
              dsimp only at hm
              cases h1 : critScore
                  (dictSet (dictSet fields "final_score"
                      (.jfloat (a * 0.40 + q * 0.35 + c * 0.25)))
                    "vector_similarity"
                    (.jfloat (cands.getD idx ⟨0, 0⟩).similarity))
                  "adequacao_estrategia" with
              | error err => rw [h1] at hm; simp at hm
              | ok v1 =>
                  rw [h1] at hm
                  dsimp only at hm
                  cases h2 : critScore
                      (dictSet (dictSet (dictSet fields "final_score"
                            (.jfloat (a * 0.40 + q * 0.35 + c * 0.25)))
                          "vector_similarity"
                          (.jfloat (cands.getD idx ⟨0, 0⟩).similarity))
                        "strategic_fit" (.jfloat v1)) "qualidade" with
                  | error err => rw [h2] at hm; simp at hm
                  | ok v2 =>
                      rw [h2] at hm
                      dsimp only at hm
                      cases h3 : critScore
                          (dictSet (dictSet (dictSet (dictSet fields "final_score"
                                  (.jfloat (a * 0.40 + q * 0.35 + c * 0.25)))
                                "vector_similarity"
                                (.jfloat (cands.getD idx ⟨0, 0⟩).similarity))
                              "strategic_fit" (.jfloat v1))
                            "quality" (.jfloat v2)) "capacidade_execucao" with
                      | error err => rw [h3] at hm; simp at hm
                      | ok v3 =>
                          rw [h3] at hm
                          simp only [Except.ok.injEq, Option.map,
                            Option.some.injEq] at hm
                          rw [← hm]

/-- Concrete entry for the C10 witness: component scores 5, 3 and 1, no
explicit final score, referencing candidate 1. -/
def c10fields : List (String × JVal) :=
  [("company_number", .jint 1),
   ("adequacao_estrategia", .jobj [("score", .jint 5)]),
   ("qualidade", .jobj [("score", .jint 3)]),
   ("capacidade_execucao", .jobj [("score", .jint 1)])]

/-- The result the parsing loop produces from `c10fields` over a one-candidate
list. -/
def c10result : MatchingResult :=
  match processEntry [⟨1, 1/2⟩] 1 (.jobj c10fields) with
  | .ok (some m) => m
  | _ => ⟨0, 0, 0, .jnull⟩

/-- C10, witness: component scores 5/3/1 with no explicit final score yield
composite 5*.40 + 3*.35 + 1*.25 = 3.30, left unchanged by the clamp. -/
theorem composite_score_witness : c10result.score = 33/10 := by
  have h := @composite_score_weighted [⟨1, 1/2⟩] 1 c10fields 5 3 1 c10result
    rfl rfl rfl rfl rfl
  rw [h]; norm_num

/-! ### Persistence: prefix visibility, pair uniqueness, idempotence -/

/-- The last scan state is the full fold. -/
theorem scanl_getLast?_eq_foldl {α β : Type} (f : β → α → β) :
    ∀ (l : List α) (b : β), (List.scanl f b l).getLast? = some (l.foldl f b)
  | [], _ => rfl
  | a :: l, b => by
      rw [List.scanl_cons, List.singleton_append, List.getLast?_cons,
        scanl_getLast?_eq_foldl f l (f b a)]
      rfl

/-- Every scan state is the fold over some prefix. -/
theorem mem_scanl_eq_foldl_take {α β : Type} (f : β → α → β) :
    ∀ (l : List α) (b : β) (s : β), s ∈ List.scanl f b l →
      ∃ k, k ≤ l.length ∧ s = (l.take k).foldl f b
  | [], b, s, hs => by
      simp only [List.scanl_nil, List.mem_singleton] at hs
      exact ⟨0, by simp, by simp [hs]⟩
  | a :: l, b, s, hs => by
      rw [List.scanl_cons, List.singleton_append, List.mem_cons] at hs
      cases hs with
      | inl h => exact ⟨0, by simp, by simp [h]⟩
      | inr h =>
          obtain ⟨k, hk, hs⟩ := mem_scanl_eq_foldl_take f l (f b a) s h
          exact ⟨k + 1, by simpa using hk, by simpa using hs⟩

/-- Two rows used in the concrete persistence scenarios (their reasoning dict
is empty, hence falsy, hence stored as NULL). -/
def c6m1 : MatchingResult := ⟨1, 3.0, 1, .jobj []⟩

/-- Second row of the concrete persistence scenario. -/
def c6m2 : MatchingResult := ⟨2, 3.0, 2, .jobj []⟩

/-- C6, counterexample: while persisting the two-result list, the state after
the first committed statement — visible to readers, since the rows are written
without an enclosing transaction — holds exactly 1 row: neither the empty
table (0 rows) nor the full upsert (2 rows), so persistence is not
all-or-nothing. -/
theorem save_midway_state_neither_none_nor_all :
    (saveStates 0 1 [c6m1, c6m2] []).get? 1
      = some (save_matches_to_database 0 1 [c6m1] []) ∧
    (save_matches_to_database 0 1 [c6m1] []).length = 1 ∧
    (([] : List MatchRow)).length = 0 ∧
    (save_matches_to_database 0 1 [c6m1, c6m2] []).length = 2 ∧
    (1 : Nat) ≠ 0 ∧ (1 : Nat) ≠ 2 := by
  exact ⟨rfl, rfl, rfl, rfl, by decide, by decide⟩

/-- C6 (amended): `save_matches_to_database` runs one individually-committed
upsert per row on a non-transactional connection, so the observable states
are exactly the upsert-folds of the prefixes of the result list: a failure
partway leaves the already-written prefix visible, and only when every write
succeeds does the final state equal the full upsert. -/
theorem save_exposes_exactly_prefix_states (now incentive_id : Nat)
    (results : List MatchingResult) (tbl : List MatchRow) :
    (saveStates now incentive_id results tbl).getLast?
      = some (save_matches_to_database now incentive_id results tbl) ∧
    ∀ s ∈ saveStates now incentive_id results tbl,
      ∃ k, k ≤ results.length ∧
        s = save_matches_to_database now incentive_id (results.take k) tbl :=
  ⟨scanl_getLast?_eq_foldl _ results tbl,
   fun s hs => mem_scanl_eq_foldl_take _ results tbl s hs⟩

/-- C6, witness: the prefix characterization applied to the concrete one-row
save, with the membership hypothesis discharged at the initial state. -/
theorem save_exposes_prefix_states_witness :
    ∃ k, k ≤ ([c6m1] : List MatchingResult).length ∧
      ([] : List MatchRow) = save_matches_to_database 0 1 ([c6m1].take k) [] :=
  (save_exposes_exactly_prefix_states 0 1 [c6m1] []).2 []
    (by simp [saveStates, List.scanl])

/-- Uniqueness of the (incentive_id, company_id) key across the table — the
`UNIQUE(incentive_id, company_id)` constraint of schema.py line 53. -/
def PairUnique (tbl : List MatchRow) : Prop :=
  tbl.Pairwise (fun a b =>
    ¬(a.incentive_id = b.incentive_id ∧ a.company_id = b.company_id))

/-- Number of stored rows for one incentive. -/
def countFor (incentive_id : Nat) (tbl : List MatchRow) : Nat :=
  (tbl.filter (fun r => r.incentive_id == incentive_id)).length

/-- Number of stored rows for one (incentive, company) pair. -/
def countKey (incentive_id company_id : Nat) (tbl : List MatchRow) : Nat :=
  (tbl.filter (fun r =>
    r.incentive_id == incentive_id && r.company_id == company_id)).length

/-- The function applied by the DO UPDATE branch keeps each row's key. -/
def updateRow (now incentive_id : Nat) (m : MatchingResult) (r : MatchRow) :
    MatchRow :=
  if r.incentive_id == incentive_id && r.company_id == m.company_id then
    { r with score := m.score, rank_position := m.rank,
             reasoning := reasoningColumn m, created_at := now }
  else r

/-- The DO UPDATE branch of the upsert, written via `updateRow`. -/
theorem upsertMatch_eq (now incentive_id : Nat) (m : MatchingResult)
    (tbl : List MatchRow) :
    upsertMatch now incentive_id m tbl =
      if tbl.any (fun r =>
          r.incentive_id == incentive_id && r.company_id == m.company_id) then
        tbl.map (updateRow now incentive_id m)
      else
        tbl ++ [⟨incentive_id, m.company_id, m.score, m.rank,
                 reasoningColumn m, now⟩] := rfl

/-- The updated row keeps its incentive id. -/
theorem updateRow_keeps_iid (now incentive_id : Nat) (m : MatchingResult)
    (r : MatchRow) :
    (updateRow now incentive_id m r).incentive_id = r.incentive_id := by
  unfold updateRow; split <;> rfl

/-- The updated row keeps its company id. -/
theorem updateRow_keeps_cid (now incentive_id : Nat) (m : MatchingResult)
    (r : MatchRow) :
    (updateRow now incentive_id m r).company_id = r.company_id := by
  unfold updateRow; split <;> rfl

/-- The single-row upsert preserves key uniqueness. -/
theorem upsertMatch_pairUnique (now incentive_id : Nat) (m : MatchingResult)
    (tbl : List MatchRow) (h : PairUnique tbl) :
    PairUnique (upsertMatch now incentive_id m tbl) := by
  unfold PairUnique at h ⊢
  rw [upsertMatch_eq]
  split
  · refine List.Pairwise.map _ ?_ h
    intro a b hab hcon
    refine hab ?_
    rw [← updateRow_keeps_iid now incentive_id m a,
        ← updateRow_keeps_iid now incentive_id m b,
        ← updateRow_keeps_cid now incentive_id m a,
        ← updateRow_keeps_cid now incentive_id m b]
    exact hcon
  · rename_i hno
    rw [List.pairwise_append]
    refine ⟨h, List.pairwise_singleton _ _, ?_⟩
    intro a ha b hb hcon
    simp only [List.mem_singleton] at hb
    subst hb
    refine hno ?_
    rw [List.any_eq_true]
    refine ⟨a, ha, ?_⟩
    simp only [Bool.and_eq_true, beq_iff_eq]
    exact hcon

/-- Mapping a key-preserving function over the table keeps per-incentive row
counts. -/
theorem countFor_map_keep (iid : Nat) (f : MatchRow → MatchRow)
    (hf : ∀ r, (f r).incentive_id = r.incentive_id) :
    ∀ tbl : List MatchRow, countFor iid (tbl.map f) = countFor iid tbl := by
  intro tbl
  unfold countFor
  induction tbl with
  | nil => rfl
  | cons r tbl ih =>
      simp only [List.map_cons, List.filter_cons, hf r]
      split
      · simpa using ih
      · exact ih

/-- The single-row upsert grows the per-incentive row count by at most one. -/
theorem upsertMatch_countFor_le (now incentive_id iid : Nat)
    (m : MatchingResult) (tbl : List MatchRow) :
    countFor iid (upsertMatch now incentive_id m tbl)
      ≤ countFor iid tbl + 1 := by
  rw [upsertMatch_eq]
  split
  · rw [countFor_map_keep iid _ (updateRow_keeps_iid now incentive_id m)]
    exact Nat.le_succ _
  · unfold countFor
    rw [List.filter_append, List.length_append]
    have h1 : (List.filter (fun r => r.incentive_id == iid)
        [(⟨incentive_id, m.company_id, m.score, m.rank,
          reasoningColumn m, now⟩ : MatchRow)]).length ≤ 1 := by
      simp only [List.filter]
      split <;> simp
    omega

/-- Saving a result list grows the per-incentive row count by at most its
length. -/
theorem save_countFor_le (iid : Nat) :
    ∀ (results : List MatchingResult) (now incentive_id : Nat)
      (tbl : List MatchRow),
      countFor iid (save_matches_to_database now incentive_id results tbl)
        ≤ countFor iid tbl + results.length
  | [], _, _, _ => Nat.le_refl _
  | m :: results, now, incentive_id, tbl => by
      have h1 := save_countFor_le iid results now incentive_id
        (upsertMatch now incentive_id m tbl)
      have h2 := upsertMatch_countFor_le now incentive_id iid m tbl
      unfold save_matches_to_database at h1 ⊢
      simp only [List.foldl_cons, List.length_cons]
      omega

/-- Saving a result list preserves key uniqueness. -/
theorem save_pairUnique :
    ∀ (results : List MatchingResult) (now incentive_id : Nat)
      (tbl : List MatchRow), PairUnique tbl →
      PairUnique (save_matches_to_database now incentive_id results tbl)
  | [], _, _, _, h => h
  | m :: results, now, incentive_id, tbl, h => by
      unfold save_matches_to_database
      simp only [List.foldl_cons]
      exact save_pairUnique results now incentive_id _
        (upsertMatch_pairUnique now incentive_id m tbl h)

/-- Concrete database for the first matching run of the C7 scenario:
incentive 1 with companies 1-5 embedded. -/
def c7db1 : DB :=
  ⟨[⟨1, some [1]⟩],
   [⟨1, some [1]⟩, ⟨2, some [1]⟩, ⟨3, some [1]⟩, ⟨4, some [1]⟩, ⟨5, some [1]⟩],
   []⟩

/-- Concrete database for the second run: the company catalog changed, now
companies 6-10 are the embedded candidates for the same incentive. -/
def c7db2 : DB :=
  ⟨[⟨1, some [1]⟩],
   [⟨6, some [1]⟩, ⟨7, some [1]⟩, ⟨8, some [1]⟩, ⟨9, some [1]⟩, ⟨10, some [1]⟩],
   []⟩

/-- The results of the first matchOne run (fallback path, 5 results). -/
def c7run1 : List MatchingResult :=
  match match_companies_for_incentive cDist c7db1 1 none [] 20 with
  | .ok rs => rs
  | .error _ => []

/-- The results of the second matchOne run over the changed catalog. -/
def c7run2 : List MatchingResult :=
  match match_companies_for_incentive cDist c7db2 1 none [] 20 with
  | .ok rs => rs
  | .error _ => []

/-- C7, counterexample: two matchOne-then-persist runs for the same incentive
with disjoint candidate sets leave 10 stored rows for that incentive — the
upsert replaces only rows whose (incentive, company) pair reappears, so the
at-most-5 bound fails across runs with different candidate sets. -/
theorem rematch_with_new_candidates_exceeds_five_rows :
    match_companies_for_incentive cDist c7db1 1 none [] 20 = .ok c7run1 ∧
    match_companies_for_incentive cDist c7db2 1 none [] 20 = .ok c7run2 ∧
    countFor 1 (save_matches_to_database 1 1 c7run2
      (save_matches_to_database 0 1 c7run1 [])) = 10 ∧
    ¬ (10 ≤ 5) := by
  exact ⟨rfl, rfl, rfl, by decide⟩

/-- C7 (amended): persisting the results of a successful matchOne run never
duplicates an (incentive, company) pair — the pair-uniqueness invariant is
preserved by every save — and adds at most 5 rows for the incentive (the
ranker caps output at 5); rows from earlier runs whose companies are absent
from the new result set are retained, so across runs with different candidate
sets the per-incentive total can exceed 5. -/
theorem persist_keeps_pairs_unique_and_bounded_growth
    {dist : List ℚ → List ℚ → ℚ} {db : DB} {iid : Nat} {decoded : Option JVal}
    {usage : List (String × ℚ)} {topK : Nat} {rs : List MatchingResult}
    (now : Nat) (tbl : List MatchRow)
    (hok : match_companies_for_incentive dist db iid decoded usage topK = .ok rs)
    (huniq : PairUnique tbl) :
    PairUnique (save_matches_to_database now iid rs tbl) ∧
    countFor iid (save_matches_to_database now iid rs tbl)
      ≤ countFor iid tbl + 5 := by
  have h5 : rs.length ≤ 5 := by
    have hs := (matchOne_ok_ranks_sublist_aux hok).length_le
    simpa using hs
  refine ⟨save_pairUnique rs now iid tbl huniq, ?_⟩
  have hb := save_countFor_le iid rs now iid tbl
  omega

/-- C7, witness: the preserved invariant and bound at the concrete first run
of the scenario, starting from the empty table. -/
theorem persist_keeps_pairs_unique_witness :
    PairUnique (save_matches_to_database 0 1 c7run1 []) ∧
    countFor 1 (save_matches_to_database 0 1 c7run1 []) ≤ countFor 1 [] + 5 :=
  persist_keeps_pairs_unique_and_bounded_growth 0 []
    (show match_companies_for_incentive cDist c7db1 1 none [] 20 = .ok c7run1
     from rfl)
    List.Pairwise.nil

/-! ### Idempotence of persistence modulo the timestamp (C8) -/

/-- A matches-table row without its `created_at` column — the view of the
table a second identical save must leave unchanged. -/
structure SRow where
  incentive_id : Nat
  company_id : Nat
  score : ℚ
  rank_position : Nat
  reasoning : Option JVal

/-- Forget the timestamp of a row. -/
def stripTime (r : MatchRow) : SRow :=
  ⟨r.incentive_id, r.company_id, r.score, r.rank_position, r.reasoning⟩

/-- Forget the timestamps of a table. -/
def stripTimes (tbl : List MatchRow) : List SRow := tbl.map stripTime

/-- Key test on the timestamp-free view. -/
def sameKeyS (incentive_id company_id : Nat) (r : SRow) : Bool :=
  r.incentive_id == incentive_id && r.company_id == company_id

/-- The values the DO UPDATE clause writes, on the timestamp-free view. -/
def setVals (m : MatchingResult) (r : SRow) : SRow :=
  { r with score := m.score, rank_position := m.rank,
           reasoning := reasoningColumn m }

/-- The row the insert branch creates, on the timestamp-free view. -/
def newSRow (incentive_id : Nat) (m : MatchingResult) : SRow :=
  ⟨incentive_id, m.company_id, m.score, m.rank, reasoningColumn m⟩

/-- The upsert as seen on the timestamp-free view. -/
def upsertStrip (incentive_id : Nat) (m : MatchingResult) (s : List SRow) :
    List SRow :=
  if s.any (sameKeyS incentive_id m.company_id) then
    s.map (fun r => if sameKeyS incentive_id m.company_id r then setVals m r else r)
  else s ++ [newSRow incentive_id m]

/-- The save as seen on the timestamp-free view. -/
def foldStrip (incentive_id : Nat) (s : List SRow)
    (results : List MatchingResult) : List SRow :=
  results.foldl (fun s m => upsertStrip incentive_id m s) s

/-- Stripping commutes with one row update. -/
theorem stripTime_updateRow (now incentive_id : Nat) (m : MatchingResult)
    (r : MatchRow) :
    stripTime (updateRow now incentive_id m r)
      = if sameKeyS incentive_id m.company_id (stripTime r) then
          setVals m (stripTime r)
        else stripTime r := by
  unfold updateRow sameKeyS stripTime setVals
  split
  · rename_i hcond
    simp only [hcond]
  · rename_i hcond
    simp only [Bool.not_eq_true] at hcond
    simp only [hcond, Bool.false_eq_true, if_false]

/-- Stripping commutes with the upsert. -/
theorem stripTimes_upsert (now incentive_id : Nat) (m : MatchingResult)
    (tbl : List MatchRow) :
    stripTimes (upsertMatch now incentive_id m tbl)
      = upsertStrip incentive_id m (stripTimes tbl) := by
  rw [upsertMatch_eq]
  unfold upsertStrip stripTimes
  have hany : ∀ l : List MatchRow,
      (l.map stripTime).any (sameKeyS incentive_id m.company_id)
        = l.any (fun r =>
            r.incentive_id == incentive_id && r.company_id == m.company_id) := by
    intro l
    induction l with
    | nil => rfl
    | cons r l ih =>
        simp only [List.map_cons, List.any_cons, ih]
        rfl
  rw [hany tbl]
  split
  · rw [List.map_map, List.map_map]
    apply List.map_congr_left
    intro r _
    simp only [Function.comp]
    exact stripTime_updateRow now incentive_id m r
  · rw [List.map_append]
    rfl

/-- Stripping commutes with the whole save. -/
theorem stripTimes_save (now incentive_id : Nat) :
    ∀ (results : List MatchingResult) (tbl : List MatchRow),
      stripTimes (save_matches_to_database now incentive_id results tbl)
        = foldStrip incentive_id (stripTimes tbl) results
  | [], _ => rfl
  | m :: results, tbl => by
      unfold save_matches_to_database foldStrip
      simp only [List.foldl_cons]
      have ih := stripTimes_save now incentive_id results
        (upsertMatch now incentive_id m tbl)
      unfold save_matches_to_database foldStrip at ih
      rw [ih, stripTimes_upsert]

/-- Replaying every matching update of a result list over a single row. -/
def applyAll (incentive_id : Nat) (r : SRow) :
    List MatchingResult → SRow
  | [] => r
  | m :: results =>
      applyAll incentive_id
        (if sameKeyS incentive_id m.company_id r then setVals m r else r) results

/-- The last result in the list whose key matches the row, if any. -/
def lastMatch (incentive_id : Nat) (r : SRow) :
    List MatchingResult → Option MatchingResult
  | [] => none
  | m :: results =>
      match lastMatch incentive_id r results with
      | some m' => some m'
      | none =>
          if sameKeyS incentive_id m.company_id r then some m else none

/-- Updating values does not change the key. -/
theorem sameKeyS_setVals (iid cid : Nat) (m : MatchingResult) (r : SRow) :
    sameKeyS iid cid (setVals m r) = sameKeyS iid cid r := rfl

/-- The last update wins. -/
theorem setVals_setVals (m m' : MatchingResult) (r : SRow) :
    setVals m' (setVals m r) = setVals m' r := rfl

/-- `lastMatch` only looks at the row's key. -/
theorem lastMatch_setVals (iid : Nat) (m0 : MatchingResult) (r : SRow) :
    ∀ results, lastMatch iid (setVals m0 r) results = lastMatch iid r results
  | [] => rfl
  | m :: results => by
      unfold lastMatch
      rw [lastMatch_setVals iid m0 r results, sameKeyS_setVals]

/-- Replaying the updates equals applying the last matching one. -/
theorem applyAll_eq_lastMatch (iid : Nat) :
    ∀ (results : List MatchingResult) (r : SRow),
      applyAll iid r results
        = match lastMatch iid r results with
          | some m' => setVals m' r
          | none => r
  | [], _ => rfl
  | m :: results, r => by
      unfold applyAll lastMatch
      cases hk : sameKeyS iid m.company_id r with
      | false =>
          simp only [hk, Bool.false_eq_true, if_false]
          rw [applyAll_eq_lastMatch iid results r]
          cases hl : lastMatch iid r results <;> simp [hl]
      | true =>
          simp only [hk, if_true]
          rw [applyAll_eq_lastMatch iid results (setVals m r),
              lastMatch_setVals]
          cases hl : lastMatch iid r results with
          | some m' => simp only [hl, setVals_setVals]
          | none => simp only [hl]

/-- Key presence is preserved by an upsert. -/
theorem any_upsertStrip_preserve {iid cid : Nat} (incentive_id : Nat)
    (m : MatchingResult) {s : List SRow}
    (h : s.any (sameKeyS iid cid) = true) :
    (upsertStrip incentive_id m s).any (sameKeyS iid cid) = true := by
  unfold upsertStrip
  split
  · rw [List.any_map]
    rw [List.any_eq_true] at h ⊢
    obtain ⟨r, hr, hk⟩ := h
    refine ⟨r, hr, ?_⟩
    simp only [Function.comp]
    split
    · rwa [sameKeyS_setVals]
    · exact hk
  · rw [List.any_append, h]
    rfl

/-- The upserted key is present afterwards. -/
theorem any_upsertStrip_self (incentive_id : Nat) (m : MatchingResult)
    (s : List SRow) :
    (upsertStrip incentive_id m s).any
      (sameKeyS incentive_id m.company_id) = true := by
  unfold upsertStrip
  split
  · rename_i h
    rw [List.any_map]
    rw [List.any_eq_true] at h ⊢
    obtain ⟨r, hr, hk⟩ := h
    refine ⟨r, hr, ?_⟩
    simp only [Function.comp, hk, if_true]
    rw [sameKeyS_setVals]
    exact hk
  · rw [List.any_append]
    have h2 : sameKeyS incentive_id m.company_id (newSRow incentive_id m)
        = true := by
      unfold sameKeyS newSRow
      simp
    simp [h2]

/-- Key presence is preserved by the whole fold. -/
theorem any_foldStrip_preserve {iid cid : Nat} (incentive_id : Nat) :
    ∀ (results : List MatchingResult) {s : List SRow},
      s.any (sameKeyS iid cid) = true →
      (foldStrip incentive_id s results).any (sameKeyS iid cid) = true
  | [], _, h => h
  | m :: results, s, h => by
      unfold foldStrip
      simp only [List.foldl_cons]
      exact any_foldStrip_preserve incentive_id results
        (any_upsertStrip_preserve incentive_id m h)

/-- After the fold, every key of the result list is present. -/
theorem any_foldStrip_mem (incentive_id : Nat) :
    ∀ (results : List MatchingResult) (s : List SRow) (m : MatchingResult),
      m ∈ results →
      (foldStrip incentive_id s results).any
        (sameKeyS incentive_id m.company_id) = true
  | [], _, _, h => absurd h (List.not_mem_nil _)
  | m0 :: results, s, m, h => by
      unfold foldStrip
      simp only [List.foldl_cons]
      rcases List.mem_cons.mp h with h1 | h2
      · subst h1
        exact any_foldStrip_preserve incentive_id results
          (any_upsertStrip_self incentive_id m s)
      · exact any_foldStrip_mem incentive_id results _ m h2

/-- When every key of the result list is already present, the fold is a
pointwise map: no row is inserted, each row just receives its updates. -/
theorem foldStrip_eq_map_applyAll (incentive_id : Nat) :
    ∀ (results : List MatchingResult) (s : List SRow),
      (∀ m ∈ results,
        s.any (sameKeyS incentive_id m.company_id) = true) →
      foldStrip incentive_id s results
        = s.map (fun r => applyAll incentive_id r results)
  | [], s, _ => by
      unfold foldStrip applyAll
      simp
  | m :: results, s, hkeys => by
      unfold foldStrip
      simp only [List.foldl_cons]
      have hm : s.any (sameKeyS incentive_id m.company_id) = true :=
        hkeys m (List.mem_cons_self m results)
      have hup : upsertStrip incentive_id m s
          = s.map (fun r =>
              if sameKeyS incentive_id m.company_id r then setVals m r else r) := by
        unfold upsertStrip
        rw [if_pos hm]
      have hkeys' : ∀ m' ∈ results,
          (upsertStrip incentive_id m s).any
            (sameKeyS incentive_id m'.company_id) = true :=
        fun m' hm' => any_upsertStrip_preserve incentive_id m
          (hkeys m' (List.mem_cons_of_mem m hm'))
      have ih := foldStrip_eq_map_applyAll incentive_id results
        (upsertStrip incentive_id m s) hkeys'
      unfold foldStrip at ih
      rw [ih, hup, List.map_map]
      apply List.map_congr_left
      intro r _
      simp only [Function.comp]
      rfl

/-- An empty `lastMatch` means no result in the list shares the row's key. -/
theorem lastMatch_none_forall (incentive_id : Nat) (r : SRow) :
    ∀ results, lastMatch incentive_id r results = none →
      ∀ m ∈ results, sameKeyS incentive_id m.company_id r = false
  | [], _, m, hm => absurd hm (List.not_mem_nil m)
  | m0 :: results, h, m, hm => by
      unfold lastMatch at h
      cases hl : lastMatch incentive_id r results with
      | some m' => rw [hl] at h; exact absurd h (by simp)
      | none =>
          rw [hl] at h
          rcases List.mem_cons.mp hm with h1 | h2
          · subst h1
            by_cases hk : sameKeyS incentive_id m.company_id r = true
            · rw [if_pos hk] at h
              exact absurd h (by simp)
            · simpa using hk
          · exact lastMatch_none_forall incentive_id r results hl m h2

/-- A row of the fold none of whose keys match any result descends unchanged
from the initial state. -/
theorem mem_foldStrip_no_match (incentive_id : Nat) :
    ∀ (results : List MatchingResult) (s : List SRow) (r : SRow),
      r ∈ foldStrip incentive_id s results →
      (∀ m ∈ results, sameKeyS incentive_id m.company_id r = false) →
      r ∈ s
  | [], _, _, hr, _ => hr
  | m :: results, s, r, hr, hnone => by
      unfold foldStrip at hr
      simp only [List.foldl_cons] at hr
      have hr' : r ∈ upsertStrip incentive_id m s :=
        mem_foldStrip_no_match incentive_id results _ r hr
          (fun m' hm' => hnone m' (List.mem_cons_of_mem m hm'))
      have hkm : sameKeyS incentive_id m.company_id r = false :=
        hnone m (List.mem_cons_self m results)
      unfold upsertStrip at hr'
      split at hr'
      · rw [List.mem_map] at hr'
        obtain ⟨r0, hr0, heq⟩ := hr'
        by_cases hk0 : sameKeyS incentive_id m.company_id r0 = true
        · rw [if_pos hk0] at heq
          rw [← heq, sameKeyS_setVals, hk0] at hkm
          exact absurd hkm (by simp)
        · rw [if_neg hk0] at heq
          rw [← heq]
          exact hr0
      · rw [List.mem_append] at hr'
        rcases hr' with h | h
        · exact h
        · simp only [List.mem_singleton] at h
          subst h
          exfalso
          unfold sameKeyS newSRow at hkm
          simp at hkm

/-- Every row of the fold already carries the values of its last matching
update, so replaying the updates changes nothing. -/
theorem applyAll_mem_foldStrip (incentive_id : Nat) :
    ∀ (results : List MatchingResult) (s : List SRow) (r : SRow),
      r ∈ foldStrip incentive_id s results →
      applyAll incentive_id r results = r
  | [], _, _, _ => rfl
  | m :: results, s, r, hr => by
      unfold foldStrip at hr
      simp only [List.foldl_cons] at hr
      have h0 : applyAll incentive_id r results = r :=
        applyAll_mem_foldStrip incentive_id results _ r hr
      show applyAll incentive_id
        (if sameKeyS incentive_id m.company_id r then setVals m r else r)
        results = r
      cases hk : sameKeyS incentive_id m.company_id r with
      | false =>
          simp only [hk, Bool.false_eq_true, if_false]
          exact h0
      | true =>
          simp only [hk, if_true]
          rw [applyAll_eq_lastMatch, lastMatch_setVals]
          cases hl : lastMatch incentive_id r results with
          | some m'' =>
              have hval := applyAll_eq_lastMatch incentive_id results r
              rw [hl] at hval
              dsimp only at hval
              have hre : setVals m'' r = r := by rw [← hval, h0]
              show setVals m'' (setVals m r) = r
              rw [setVals_setVals, hre]
          | none =>
              show setVals m r = r
              have hnone := lastMatch_none_forall incentive_id r results hl
              have hmem : r ∈ upsertStrip incentive_id m s :=
                mem_foldStrip_no_match incentive_id results _ r hr hnone
              unfold upsertStrip at hmem
              split at hmem
              · rw [List.mem_map] at hmem
                obtain ⟨r0, hr0, heq⟩ := hmem
                by_cases hk0 : sameKeyS incentive_id m.company_id r0 = true
                · rw [if_pos hk0] at heq
                  rw [← heq, setVals_setVals]
                · rw [if_neg hk0] at heq
                  exfalso
                  rw [heq] at hk0
                  exact hk0 hk
              · rename_i hno
                rw [List.mem_append] at hmem
                rcases hmem with h | h
                · exfalso
                  exact hno (List.any_eq_true.mpr ⟨r, h, hk⟩)
                · simp only [List.mem_singleton] at h
                  subst h
                  rfl

/-- Replaying the same result list over its own fold is the identity. -/
theorem foldStrip_idem (incentive_id : Nat) (s : List SRow)
    (results : List MatchingResult) :
    foldStrip incentive_id (foldStrip incentive_id s results) results
      = foldStrip incentive_id s results := by
  rw [foldStrip_eq_map_applyAll incentive_id results _
    (fun m hm => any_foldStrip_mem incentive_id results s m hm)]
  have hfix : ∀ r ∈ foldStrip incentive_id s results,
      applyAll incentive_id r results = r :=
    fun r hr => applyAll_mem_foldStrip incentive_id results s r hr
  calc (foldStrip incentive_id s results).map
        (fun r => applyAll incentive_id r results)
      = (foldStrip incentive_id s results).map (fun r => r) :=
        List.map_congr_left hfix
    _ = foldStrip incentive_id s results := List.map_id' _

/-- Key presence is preserved by an upsert, on the stored table. -/
theorem any_upsertMatch_preserve {iid cid : Nat} (now incentive_id : Nat)
    (m : MatchingResult) {tbl : List MatchRow}
    (h : tbl.any (fun r => r.incentive_id == iid && r.company_id == cid) = true) :
    (upsertMatch now incentive_id m tbl).any
      (fun r => r.incentive_id == iid && r.company_id == cid) = true := by
  rw [upsertMatch_eq]
  split
  · rw [List.any_eq_true] at h ⊢
    obtain ⟨r, hr, hk⟩ := h
    refine ⟨updateRow now incentive_id m r, List.mem_map_of_mem _ hr, ?_⟩
    rw [updateRow_keeps_iid, updateRow_keeps_cid]
    exact hk
  · rw [List.any_append, h]
    rfl

/-- The upserted key is present afterwards, on the stored table. -/
theorem any_upsertMatch_self (now incentive_id : Nat) (m : MatchingResult)
    (tbl : List MatchRow) :
    (upsertMatch now incentive_id m tbl).any
      (fun r => r.incentive_id == incentive_id && r.company_id == m.company_id)
      = true := by
  rw [upsertMatch_eq]
  split
  · rename_i h
    rw [List.any_eq_true] at h ⊢
    obtain ⟨r, hr, hk⟩ := h
    refine ⟨updateRow now incentive_id m r, List.mem_map_of_mem _ hr, ?_⟩
    rw [updateRow_keeps_iid, updateRow_keeps_cid]
    exact hk
  · rw [List.any_append]
    simp

/-- Key presence is preserved by a whole save. -/
theorem any_save_preserve {iid cid : Nat} (now incentive_id : Nat) :
    ∀ (results : List MatchingResult) {tbl : List MatchRow},
      tbl.any (fun r => r.incentive_id == iid && r.company_id == cid) = true →
      (save_matches_to_database now incentive_id results tbl).any
        (fun r => r.incentive_id == iid && r.company_id == cid) = true
  | [], _, h => h
  | m :: results, tbl, h => by
      unfold save_matches_to_database
      simp only [List.foldl_cons]
      exact any_save_preserve now incentive_id results
        (any_upsertMatch_preserve now incentive_id m h)

/-- After a save, every (incentive, company) key of the result list is
present in the table. -/
theorem any_save_mem (now incentive_id : Nat) :
    ∀ (results : List MatchingResult) (tbl : List MatchRow)
      (m : MatchingResult), m ∈ results →
      (save_matches_to_database now incentive_id results tbl).any
        (fun r => r.incentive_id == incentive_id
                  && r.company_id == m.company_id) = true
  | [], _, m, h => absurd h (List.not_mem_nil m)
  | m0 :: results, tbl, m, h => by
      unfold save_matches_to_database
      simp only [List.foldl_cons]
      rcases List.mem_cons.mp h with h1 | h2
      · subst h1
        exact any_save_preserve now incentive_id results
          (any_upsertMatch_self now incentive_id m tbl)
      · exact any_save_mem now incentive_id results
          (upsertMatch now incentive_id m0 tbl) m h2

/-- Under pair uniqueness at most one row carries any given key. -/
theorem countKey_le_one_of_pairUnique (iid cid : Nat) (tbl : List MatchRow)
    (h : PairUnique tbl) : countKey iid cid tbl ≤ 1 := by
  unfold countKey
  unfold PairUnique at h
  have hpw := h.filter (fun r => r.incentive_id == iid && r.company_id == cid)
  cases hf : tbl.filter
      (fun r => r.incentive_id == iid && r.company_id == cid) with
  | nil => simp
  | cons a t =>
      cases t with
      | nil => simp
      | cons b t2 =>
          exfalso
          rw [hf] at hpw
          have hab := (List.pairwise_cons.mp hpw).1 b
            (List.mem_cons_self b t2)
          have ha : a ∈ tbl.filter
              (fun r => r.incentive_id == iid && r.company_id == cid) := by
            rw [hf]; exact List.mem_cons_self a (b :: t2)
          have hb : b ∈ tbl.filter
              (fun r => r.incentive_id == iid && r.company_id == cid) := by
            rw [hf]; exact List.mem_cons_of_mem a (List.mem_cons_self b t2)
          have hpa := List.of_mem_filter ha
          have hpb := List.of_mem_filter hb
          simp only [Bool.and_eq_true, beq_iff_eq] at hpa hpb
          exact hab ⟨hpa.1.trans hpb.1.symm, hpa.2.trans hpb.2.symm⟩

/-- A present key is carried by at least one row. -/
theorem countKey_pos_of_any (iid cid : Nat) (tbl : List MatchRow)
    (h : tbl.any (fun r => r.incentive_id == iid && r.company_id == cid)
      = true) : 1 ≤ countKey iid cid tbl := by
  unfold countKey
  rw [List.any_eq_true] at h
  obtain ⟨r, hr, hk⟩ := h
  have hm : r ∈ tbl.filter
      (fun r => r.incentive_id == iid && r.company_id == cid) :=
    List.mem_filter.mpr ⟨hr, hk⟩
  exact List.length_pos.mpr (List.ne_nil_of_mem hm)

/-- C8: `save_matches_to_database` is idempotent — calling it a second time
with the same incentive id and the same result list leaves the timestamp-free
view of the table (score, rank_position, reasoning per (incentive, company))
unchanged, and after the first call exactly one stored row exists per
(incentive, company) pair of the result list. -/
theorem persist_idempotent_modulo_timestamp (now1 now2 incentive_id : Nat)
    (results : List MatchingResult) (tbl : List MatchRow)
    (huniq : PairUnique tbl) :
    stripTimes (save_matches_to_database now2 incentive_id results
        (save_matches_to_database now1 incentive_id results tbl))
      = stripTimes (save_matches_to_database now1 incentive_id results tbl) ∧
    ∀ m ∈ results,
      countKey incentive_id m.company_id
        (save_matches_to_database now1 incentive_id results tbl) = 1 := by
  constructor
  · rw [stripTimes_save now2 incentive_id results,
        stripTimes_save now1 incentive_id results tbl]
    exact foldStrip_idem incentive_id (stripTimes tbl) results
  · intro m hm
    refine Nat.le_antisymm ?_ ?_
    · exact countKey_le_one_of_pairUnique _ _ _
        (save_pairUnique results now1 incentive_id tbl huniq)
    · exact countKey_pos_of_any _ _ _
        (any_save_mem now1 incentive_id results tbl m hm)

/-- Concrete result row for the C8 witness (truthy reasoning payload). -/
def c8m : MatchingResult := ⟨42, 3.0, 1, .jobj [("recommendation", .jstr "ok")]⟩

/-- C8, witness: idempotence and the one-row-per-pair property at a concrete
save of one result into the empty table, under two different timestamps. -/
theorem persist_idempotent_witness :
    stripTimes (save_matches_to_database 7 1 [c8m]
        (save_matches_to_database 3 1 [c8m] []))
      = stripTimes (save_matches_to_database 3 1 [c8m] []) ∧
    ∀ m ∈ ([c8m] : List MatchingResult),
      countKey 1 m.company_id (save_matches_to_database 3 1 [c8m] []) = 1 :=
  persist_idempotent_modulo_timestamp 3 7 1 [c8m] [] List.Pairwise.nil

/-! ### CandidatePreFilter: the under-shoot correction (C5) -/

/-- Anything the scan loop returns was accumulated before, or comes from the
walked list and matches a broadened keyword. -/
theorem broadScanGo_sound (gks : List String) (target_count : Nat) :
    ∀ (l acc : List Company) (c : Company),
      c ∈ broadScanGo gks target_count acc l →
      c ∈ acc ∨ (c ∈ l ∧
        gks.any (fun k => containsSeq (lowerStr k) (focusText c)) = true)
  | [], _, c, hc => Or.inl hc
  | c0 :: l, acc, c, hc => by
      unfold broadScanGo at hc
      split at hc
      · exact Or.inl hc
      · split at hc
        · rename_i hmatch
          rcases broadScanGo_sound gks target_count l _ c hc with h | h
          · rcases List.mem_append.mp h with h2 | h2
            · exact Or.inl h2
            · simp only [List.mem_singleton] at h2
              subst h2
              exact Or.inr ⟨List.mem_cons_self c l, hmatch⟩
          · exact Or.inr ⟨List.mem_cons_of_mem c0 h.1, h.2⟩
        · rcases broadScanGo_sound gks target_count l acc c hc with h | h
          · exact Or.inl h
          · exact Or.inr ⟨List.mem_cons_of_mem c0 h.1, h.2⟩

/-- The scan never exceeds the target count. -/
theorem broadScanGo_length_le (gks : List String) (target_count : Nat) :
    ∀ (l acc : List Company), acc.length ≤ target_count →
      (broadScanGo gks target_count acc l).length ≤ target_count
  | [], _, h => h
  | c0 :: l, acc, h => by
      unfold broadScanGo
      split
      · exact h
      · rename_i hlt
        split
        · refine broadScanGo_length_le gks target_count l _ ?_
          rw [List.length_append]
          simp only [List.length_singleton]
          omega
        · exact broadScanGo_length_le gks target_count l acc h

/-- C5 (amended): when the surviving set after the filtering stages is below
half the target count, `filter_companies_for_incentive` REPLACES it with the
output of `_expand_candidate_pool` — a fresh scan of the original full
company set with the broadened, domain-agnostic keyword list, capped at
`target_count`, topped up by a random sample only when the scan itself found
fewer than half the target — so a company that survived the earlier stages is
kept only if it also matches a broadened keyword, and survivors can be
dropped. -/
theorem undershoot_replaces_with_expansion
    (sample : List Company → Nat → List Company) (companies : List Company)
    (inc : FilterIncentive) (target_count : Nat)
    (h : (stageCandidates companies inc target_count).length
           < target_count / 2) :
    filter_companies_for_incentive sample companies inc target_count
      = expand_candidate_pool sample companies inc target_count ∧
    (∀ c ∈ broadScan companies inc target_count,
      c ∈ companies ∧
      (extract_general_keywords inc).any
        (fun k => containsSeq (lowerStr k) (focusText c)) = true) ∧
    (broadScan companies inc target_count).length ≤ target_count ∧
    (target_count / 2 ≤ (broadScan companies inc target_count).length →
      expand_candidate_pool sample companies inc target_count
        = broadScan companies inc target_count) := by
  refine ⟨?_, ?_, ?_, ?_⟩
  · unfold filter_companies_for_incentive
    rw [if_pos h]
  · intro c hc
    rcases broadScanGo_sound (extract_general_keywords inc) target_count
        companies [] c hc with h0 | h0
    · exact absurd h0 (List.not_mem_nil c)
    · exact ⟨h0.1, h0.2⟩
  · exact broadScanGo_length_le (extract_general_keywords inc) target_count
      companies [] (Nat.zero_le _)
  · intro hge
    unfold expand_candidate_pool
    have hnot : ¬ ((broadScan companies inc target_count).length
        < target_count / 2) := by omega
    simp only [hnot, if_false]

/-- First concrete company of the C5 scenario: matches the incentive keyword
but no broadened keyword. -/
def c5c1 : Company := ⟨1, none, some "alpha works"⟩

/-- Second concrete company: matches the broadened keyword `empresa`. -/
def c5c2 : Company := ⟨2, none, some "empresa dois"⟩

/-- Third concrete company: matches the broadened keyword `empresa`. -/
def c5c3 : Company := ⟨3, none, some "empresa tres"⟩

/-- Concrete incentive: empty title and description; structured data with the
single eligible-activity keyword `alpha`. -/
def c5inc : FilterIncentive :=
  ⟨"", none, some ⟨[], ["alpha"], [], false, false, false, []⟩⟩

/-- A deterministic stand-in for `random.sample` (the counterexample run
never reaches the sampling branch). -/
def c5sample : List Company → Nat → List Company := fun l n => l.take n

/-- C5, counterexample: with target 4, company 1 is the sole survivor of the
filtering stages (it matches the incentive keyword `alpha`), so the
under-shoot correction fires; the returned list is `[c5c2, c5c3]` — the broad
re-scan alone — and the survivor company 1 is NOT in the returned list,
contradicting the claim that matches are appended to the previously
surviving set. -/
theorem undershoot_drops_survivors :
    stageCandidates [c5c1, c5c2, c5c3] c5inc 4 = [c5c1] ∧
    filter_companies_for_incentive c5sample [c5c1, c5c2, c5c3] c5inc 4
      = [c5c2, c5c3] ∧
    c5c1 ∈ stageCandidates [c5c1, c5c2, c5c3] c5inc 4 ∧
    c5c1 ∉ filter_companies_for_incentive c5sample [c5c1, c5c2, c5c3] c5inc 4 := by
  refine ⟨by decide, by decide, by decide, by decide⟩

/-- C5, witness: the replacement equation at the concrete scenario, with the
under-shoot hypothesis discharged by evaluation. -/
theorem undershoot_replaces_with_expansion_witness :
    filter_companies_for_incentive c5sample [c5c1, c5c2, c5c3] c5inc 4
      = expand_candidate_pool c5sample [c5c1, c5c2, c5c3] c5inc 4 :=
  (undershoot_replaces_with_expansion c5sample [c5c1, c5c2, c5c3] c5inc 4
    (by decide)).1

end Augusta
